import Mathlib

/-
Verification of the flow execution engine of the codeblock-bff repository
(packages/server/src/api/execute and utils/response.ts), as a shallow
embedding in Lean.  JavaScript runtime values are modelled by `Js`
(JSON values plus `undefined`); JS `Map`s and plain objects used as
dictionaries are modelled by association lists with JS `Map.set` /
property-assignment semantics (`mapSet`).  External effects (the block
definition store and the upstream `fetch`) are passed in as explicit
environment functions.
-/

set_option autoImplicit false

namespace CB

/-- JS runtime values: JSON values plus `undefined`.  Numbers are modelled
as integers (the engine never does arithmetic on payload numbers). -/
inductive Js where
  | undefined : Js
  | null : Js
  | bool : Bool → Js
  | num : Int → Js
  | str : String → Js
  | arr : List Js → Js
  | obj : List (String × Js) → Js

def Js.isUndefined : Js → Bool
  | .undefined => true
  | _ => false

/-- JS truthiness (`NaN` is not modelled; numbers are integers). -/
def jsTruthy : Js → Bool
  | .undefined => false
  | .null => false
  | .bool b => b
  | .num n => n != 0
  | .str s => s != ""
  | .arr _ => true
  | .obj _ => true

/-- Association-list model of a JS `Map` (and of a plain object used as a
dictionary): `set` overwrites in place, a new key is appended at the end,
preserving insertion order exactly like the JS runtime. -/
def mapSet {β : Type} : List (String × β) → String → β → List (String × β)
  | [], k, v => [(k, v)]
  | (k2, v2) :: rest, k, v =>
      if k2 = k then (k, v) :: rest else (k2, v2) :: mapSet rest k v

def mapGet {β : Type} : List (String × β) → String → Option β
  | [], _ => none
  | (k2, v2) :: rest, k => if k2 = k then some v2 else mapGet rest k

def mapGetD {β : Type} (m : List (String × β)) (k : String) (d : β) : β :=
  (mapGet m k).getD d

/-- A JS object holding JS values.  Reading an absent property yields
`undefined`, as in JS. -/
abbrev JsRecord := List (String × Js)

def readField (r : JsRecord) (k : String) : Js :=
  (mapGet r k).getD Js.undefined

/-- `JSON.stringify` drops object keys whose value is `undefined`; this is
the (top-level) serialised form of a record built by the engine.  Values
produced by `JSON.parse` never contain `undefined` inside, so a top-level
filter is faithful for the engine's response objects. -/
def dropUndefined (r : JsRecord) : JsRecord :=
  r.filter (fun kv => !kv.2.isUndefined)

/- The string conversion `String(v)` of JS.  Inside an array join, `null`
and `undefined` print as the empty string. -/
mutual
def jsToString : Js → String
  | .undefined => "undefined"
  | .null => "null"
  | .bool b => if b then "true" else "false"
  | .num n => toString n
  | .str s => s
  | .arr xs => String.intercalate "," (jsToStringArr xs)
  | .obj _ => "[object Object]"

def jsToStringArr : List Js → List String
  | [] => []
  | .undefined :: rest => "" :: jsToStringArr rest
  | .null :: rest => "" :: jsToStringArr rest
  | v :: rest => jsToString v :: jsToStringArr rest
end

/-! ### JSONPath subset (`extractJsonPath` of flows/index.ts) -/

def digitsToNat (l : List Char) : Nat :=
  l.foldl (fun n c => n * 10 + (c.toNat - 48)) 0

/-- A word character in the sense of the JS regex `\w`. -/
def isWordChar (c : Char) : Bool :=
  c.isAlphanum || c = '_'

/-- Parses a path segment against the regex of the source,
matching a key of word characters followed by a bracketed decimal index;
returns the key and the index parsed in base 10. -/
def parseIndexSeg (s : String) : Option (String × Nat) :=
  let cs := s.data
  let key := cs.takeWhile isWordChar
  let rest := cs.dropWhile isWordChar
  match rest with
  | '[' :: r2 =>
      let ds := r2.takeWhile Char.isDigit
      let r3 := r2.dropWhile Char.isDigit
      if key ≠ [] ∧ ds ≠ [] ∧ r3 = [']'] then some (String.mk key, digitsToNat ds)
      else none
  | _ => none

/-- A canonical array index string, as accepted by JS array property
access: digits only, no leading zero except `0` itself. -/
def canonIndex (s : String) : Option Nat :=
  match s.data with
  | [] => none
  | c :: rest =>
      if c = '0' then (if rest = [] then some 0 else none)
      else if (c :: rest).all Char.isDigit then some (digitsToNat (c :: rest))
      else none

/-- JS property read `v[k]` for the value shapes reachable from parsed
JSON.  Prototype-chain properties are not modelled; the engine's paths
address own properties, array elements and `length`. -/
def jsGetField : Js → String → Js
  | .obj fields, k => readField fields k
  | .arr xs, k =>
      if k = "length" then .num xs.length
      else match canonIndex k with
        | some i => (xs.get? i).getD .undefined
        | none => .undefined
  | .str s, k =>
      if k = "length" then .num s.length
      else match canonIndex k with
        | some i => match s.data.get? i with
          | some c => .str (String.mk [c])
          | none => .undefined
        | none => .undefined
  | _, _ => .undefined

/-- One loop iteration of `extractJsonPath`: the `null`/`undefined` guard,
then either the array-index segment form (which indexes only when the
selected value actually is an array) or a plain key read. -/
def stepSeg (cur : Js) (part : String) : Js :=
  match cur with
  | .null => .undefined
  | .undefined => .undefined
  | _ =>
      match parseIndexSeg part with
      | some (key, idx) =>
          match jsGetField cur key with
          | .arr xs => (xs.get? idx).getD .undefined
          | v => v
      | none => jsGetField cur part

/-- The leading "$" with an optional following dot is removed, once, at
the start only (regex of the source). -/
def stripDollar (p : String) : String :=
  match p.data with
  | '$' :: '.' :: rest => String.mk rest
  | '$' :: rest => String.mk rest
  | _ => p

/-- Character-level `split('.')` with the JS semantics for a one-character
separator: adjacent separators and a trailing separator produce empty
segments. -/
def splitDotAux : List Char → List Char → List String
  | [], acc => [String.mk acc.reverse]
  | c :: rest, acc =>
      if c = '.' then String.mk acc.reverse :: splitDotAux rest []
      else splitDotAux rest (c :: acc)

def splitDot (s : String) : List String :=
  splitDotAux s.data []

/-- `extractJsonPath` of flows/index.ts. -/
def extractJsonPath (data : Js) (path : String) : Js :=
  if path = "" ∨ path = "$" then data
  else (splitDot (stripDollar path)).foldl stepSeg data

/-! ### Data model (shared/types/flow.ts and execution.ts) -/

inductive MappingType where
  | flow_input : MappingType
  | block_output : MappingType
  | constant : MappingType
  | expression : MappingType
deriving DecidableEq

/-- Mirrors the `MappingSource` interface: a tag plus the optional payload
fields (the TS fields are all optional). -/
structure MappingSource where
  type : MappingType
  name : Option String
  blockId : Option String
  outputName : Option String
  value : Js
  expression : Option String

structure InputMapping where
  targetInput : String
  source : MappingSource

structure FlowBlockConfig where
  timeout : Option Int
  retryCount : Option Int
  continueOnError : Option Bool
deriving DecidableEq

/-- A block instance inside a flow.  The editor-only `position` field is
never read by the engine and is omitted. -/
structure FlowBlock where
  id : String
  blockId : String
  inputMappings : List InputMapping
  config : Option FlowBlockConfig

/-- A connection edge.  The reserved `condition` field is never read by
the engine and is omitted. -/
structure Connection where
  id : String
  fromBlockId : String
  toBlockId : String
deriving DecidableEq

/-- A flow input declaration; only the fields the execute path reads
(`name`, `required`, `defaultValue`) are modelled.  An absent
`defaultValue` is `Js.undefined`. -/
structure FlowInputDefinition where
  name : String
  required : Bool
  defaultValue : Js

structure FlowOutputDefinition where
  name : String
  sourceBlockId : String
  sourceOutput : String
deriving DecidableEq

structure FlowConfig where
  timeout : Option Int
deriving DecidableEq

/-- The fields of a flow the execute path reads.  `_id`, `status`, and the
metadata fields play no role once the published flow has been loaded. -/
structure Flow where
  slug : String
  version : Int
  blocks : List FlowBlock
  connections : List Connection
  inputs : List FlowInputDefinition
  outputs : List FlowOutputDefinition
  config : FlowConfig

inductive ParamIn where
  | path : ParamIn
  | query : ParamIn
  | header : ParamIn
  | body : ParamIn
deriving DecidableEq

inductive BlockType where
  | api_call : BlockType
  | transform : BlockType
  | condition : BlockType
  | loop : BlockType
  | aggregate : BlockType
  | custom : BlockType
deriving DecidableEq

def BlockType.toName : BlockType → String
  | .api_call => "api_call"
  | .transform => "transform"
  | .condition => "condition"
  | .loop => "loop"
  | .aggregate => "aggregate"
  | .custom => "custom"

structure BlockInputDef where
  name : String
  inLoc : ParamIn
deriving DecidableEq

structure BlockOutputDef where
  name : String
  path : String
deriving DecidableEq

structure BlockSource where
  serverUrl : Option String
  path : String
  method : String
deriving DecidableEq

/-- A block definition, as stored in the `blocks` collection. -/
structure Block where
  type : BlockType
  source : BlockSource
  inputs : List BlockInputDef
  outputs : List BlockOutputDef

/-- `ExecutionStatus` of shared/types/execution.ts; the engine itself only
produces `success` and `failure` (`partialStatus` models the TS value
'partial', renamed because of a reserved word). -/
inductive ExecStatus where
  | success : ExecStatus
  | failure : ExecStatus
  | partialStatus : ExecStatus
deriving DecidableEq

structure BlockErr where
  message : String
  code : Option String

structure RawResponse where
  statusCode : Nat
  data : Js
  headers : List (String × String)

structure BlockExecutionResult where
  status : ExecStatus
  outputs : Option JsRecord
  rawResponse : Option RawResponse
  error : Option BlockErr

/-- Per-invocation execution context; `vars` models the scratch
`variables` map of the TS interface (renamed: reserved word in Lean). -/
structure ExecutionContext where
  flowId : String
  inputs : JsRecord
  vars : JsRecord
  blockResults : List (String × BlockExecutionResult)

/-! ### URL composition helpers used by `executeApiCall` -/

/-- JS `String.prototype.replace` with a string pattern replaces the first
occurrence only. -/
def replaceFirstList : List Char → List Char → List Char → List Char
  | [], _, _ => []
  | c :: rest, pat, repl =>
      if pat.isPrefixOf (c :: rest) then repl ++ (c :: rest).drop pat.length
      else c :: replaceFirstList rest pat repl

def replaceFirst (s pat repl : String) : String :=
  String.mk (replaceFirstList s.data pat.data repl.data)

/-- UTF-8 bytes of a code point, as plain naturals. -/
def utf8Bytes (n : Nat) : List Nat :=
  if n < 128 then [n]
  else if n < 2048 then [192 + n / 64, 128 + n % 64]
  else if n < 65536 then [224 + n / 4096, 128 + (n / 64) % 64, 128 + n % 64]
  else [240 + n / 262144, 128 + (n / 4096) % 64, 128 + (n / 64) % 64, 128 + n % 64]

def hexDigit (n : Nat) : Char :=
  if n < 10 then Char.ofNat (48 + n) else Char.ofNat (55 + n)

def percentEncode (n : Nat) : List Char :=
  ['%', hexDigit (n / 16), hexDigit (n % 16)]

/-- Characters `encodeURIComponent` leaves as-is (39 is the apostrophe). -/
def isUriUnreserved (c : Char) : Bool :=
  c.isAlphanum || c = '-' || c = '_' || c = '.' || c = '!' || c = '~' ||
    c = '*' || c = '(' || c = ')' || c.toNat = 39

def encodeURIComponent (s : String) : String :=
  String.mk (s.data.foldr
    (fun c acc =>
      if isUriUnreserved c then c :: acc
      else (utf8Bytes c.toNat).foldr (fun b a => percentEncode b ++ a) acc)
    [])

/-- Characters `URLSearchParams` serialisation leaves as-is. -/
def isFormUnreserved (c : Char) : Bool :=
  c.isAlphanum || c = '-' || c = '_' || c = '.' || c = '*'

def formEncode (s : String) : String :=
  String.mk (s.data.foldr
    (fun c acc =>
      if isFormUnreserved c then c :: acc
      else if c = ' ' then '+' :: acc
      else (utf8Bytes c.toNat).foldr (fun b a => percentEncode b ++ a) acc)
    [])

/-- `URLSearchParams.toString`. -/
def queryString (ps : List (String × String)) : String :=
  String.intercalate "&" (ps.map (fun p => formEncode p.1 ++ "=" ++ formEncode p.2))

/-! ### Block dispatch (`executeApiCall`, `executeTransform`, `executeBlock`) -/

/-- The arguments of the single `fetch` call of `executeApiCall`:
the composed URL, the method, the headers, the body (absent when the body
value is falsy), and the argument of `AbortSignal.timeout` (absent when
`config?.timeout` is falsy). -/
structure UpstreamRequest where
  url : String
  method : String
  headers : List (String × String)
  body : Option Js
  timeoutMs : Option Int

/-- Request composition of `executeApiCall` (everything before `fetch`):
path parameters are substituted (first occurrence, URL-encoded), query
inputs collected, header inputs collected over a `Content-Type` default,
at most one body input taken; inputs whose resolved value is `undefined`
are skipped. -/
def buildApiRequest (block : Block) (inputs : JsRecord) (config : Option FlowBlockConfig) :
    UpstreamRequest :=
  let url0 := (block.source.serverUrl.getD "") ++ block.source.path
  let st := block.inputs.foldl
    (fun (st : String × List (String × String) × List (String × String) × Js) inp =>
      let value := readField inputs inp.name
      if value.isUndefined then st
      else
        match inp.inLoc with
        | .path =>
            (replaceFirst st.1 ("\x7b" ++ inp.name ++ "\x7d")
              (encodeURIComponent (jsToString value)), st.2.1, st.2.2.1, st.2.2.2)
        | .query => (st.1, mapSet st.2.1 inp.name (jsToString value), st.2.2.1, st.2.2.2)
        | .header => (st.1, st.2.1, mapSet st.2.2.1 inp.name (jsToString value), st.2.2.2)
        | .body => (st.1, st.2.1, st.2.2.1, value))
    (url0, [], [("Content-Type", "application/json")], Js.undefined)
  let url := if queryString st.2.1 ≠ "" then st.1 ++ "?" ++ queryString st.2.1 else st.1
  let timeoutMs := match config with
    | some c => match c.timeout with
      | some t => if t ≠ 0 then some t else none
      | none => none
    | none => none
  ⟨url, block.source.method, st.2.2.1,
    (if jsTruthy st.2.2.2 then some st.2.2.2 else none), timeoutMs⟩

/-- The environment's answer to one `fetch`: either the settled response
(status, parsed JSON body, headers) or the message of the thrown error. -/
structure HttpResponse where
  status : Nat
  body : Js
  headers : List (String × String)

abbrev FetchEnv := UpstreamRequest → Except String HttpResponse

/-- What `executeApiCall` does with the settled `fetch`: a thrown error
(transport failure, abort, or a non-JSON body) becomes a failure result
carrying only the error message; a response has its body projected
through each declared output path, is recorded raw, and is a success
exactly when the HTTP status is 2xx.  A non-2xx response produces a
failure result with NO `error` field. -/
def apiCallRespond (block : Block) (res : Except String HttpResponse) : BlockExecutionResult :=
  match res with
  | .error msg => ⟨.failure, none, none, some ⟨msg, none⟩⟩
  | .ok r =>
      let outs := block.outputs.foldl
        (fun acc o => mapSet acc o.name (extractJsonPath r.body o.path)) []
      ⟨(if 200 ≤ r.status ∧ r.status ≤ 299 then .success else .failure),
        some outs, some ⟨r.status, r.body, r.headers⟩, none⟩

structure ApiCallOutcome where
  request : UpstreamRequest
  result : BlockExecutionResult

/-- `executeApiCall` of flows/index.ts: build the request, perform the one
`fetch`, settle the result.  There is no retry loop: the function issues
exactly one upstream request per invocation. -/
def executeApiCall (block : Block) (inputs : JsRecord) (config : Option FlowBlockConfig)
    (env : FetchEnv) : ApiCallOutcome :=
  let req := buildApiRequest block inputs config
  ⟨req, apiCallRespond block (env req)⟩

def executeTransform (inputs : JsRecord) : BlockExecutionResult :=
  ⟨.success, some inputs, none, none⟩

structure BlockOutcome where
  result : BlockExecutionResult
  requests : List UpstreamRequest

/-- `executeBlock` of flows/index.ts.  The block definition is resolved
first (cache/store, modelled by `lookup`); a missing definition is a
failure even in test mode.  The test-mode short-circuit follows, then the
dispatch by block type.  `requests` lists the upstream `fetch` calls the
invocation performed. -/
def executeBlock (lookup : String → Option Block) (env : FetchEnv) (blockId : String)
    (inputs : JsRecord) (config : Option FlowBlockConfig) (isTest : Bool) : BlockOutcome :=
  match lookup blockId with
  | none => ⟨⟨.failure, none, none, some ⟨"Block not found: " ++ blockId, none⟩⟩, []⟩
  | some block =>
      if isTest then
        ⟨⟨.success, some [("_test", Js.bool true), ("blockId", Js.str blockId)], none, none⟩, []⟩
      else
        match block.type with
        | .api_call =>
            let o := executeApiCall block inputs config env
            ⟨o.result, [o.request]⟩
        | .transform => ⟨executeTransform inputs, []⟩
        | t => ⟨⟨.failure, none, none,
            some ⟨"Unsupported block type: " ++ t.toName, none⟩⟩, []⟩

/-! ### Topological planner (`topologicalSort` of flows/index.ts) -/

/-- The inner fold of one Kahn iteration: for each successor of the
dequeued node, decrement its (possibly absent, defaulting to 0) tracked
indegree and enqueue it exactly when the new degree is 0. -/
def kahnFold (adj : List String) (st : List (String × Int) × List String) :
    List (String × Int) × List String :=
  adj.foldl
    (fun s next =>
      let nd := mapGetD s.1 next 0 - 1
      (mapSet s.1 next nd, if nd = 0 then s.2 ++ [next] else s.2))
    st

/-- The `while (queue.length > 0)` loop of `topologicalSort`, with an
explicit fuel.  The source loop terminates because a node is enqueued
only when its strictly decreasing tracked degree reaches 0; the fuel
passed by `topologicalSort` exceeds every possible number of dequeues. -/
def kahnLoop (graph : List (String × List String)) :
    Nat → List (String × Int) → List String → List String → List String
  | 0, _, _, result => result
  | _ + 1, _, [], result => result
  | fuel + 1, inDeg, current :: rest, result =>
      let st := kahnFold (mapGetD graph current []) (inDeg, rest)
      kahnLoop graph fuel st.1 st.2 (result ++ [current])

/-- One step of the initialisation loop of `topologicalSort`: the block id
is given an empty adjacency list and tracked indegree 0. -/
def kahnBuildStepB (gd : List (String × List String) × List (String × Int))
    (b : FlowBlock) : List (String × List String) × List (String × Int) :=
  (mapSet gd.1 b.id [], mapSet gd.2 b.id 0)

/-- One step of the graph-building loop of `topologicalSort`: the target
is appended to the adjacency list of the source when the source is a
known block (`graph.get(...)?.push`), and the target's tracked indegree
is unconditionally incremented (`(inDegree.get(...) || 0) + 1`). -/
def kahnBuildStepC (gd : List (String × List String) × List (String × Int))
    (c : Connection) : List (String × List String) × List (String × Int) :=
  (match mapGet gd.1 c.fromBlockId with
   | some adj => mapSet gd.1 c.fromBlockId (adj ++ [c.toBlockId])
   | none => gd.1,
   mapSet gd.2 c.toBlockId (mapGetD gd.2 c.toBlockId 0 + 1))

/-- The two initialisation loops of `topologicalSort`, producing the
adjacency map and the indegree map. -/
def kahnBuild (blocks : List FlowBlock) (connections : List Connection) :
    List (String × List String) × List (String × Int) :=
  connections.foldl kahnBuildStepC (blocks.foldl kahnBuildStepB ([], []))

/-- Specification auxiliary (not part of the source): the number of graph
edges into `t` whose source key lies outside `excl`.  Used to state the
Kahn-loop invariant that protects never-emitted nodes. -/
def edgeCountFrom (graph : List (String × List String)) (excl : List String) (t : String) :
    Nat :=
  ((graph.filter (fun p => decide (p.1 ∉ excl))).map (fun p => p.2.count t)).sum

/-- `topologicalSort` of flows/index.ts.  Note the source performs no
cycle check: it simply returns whatever was emitted, which omits every
node whose tracked indegree never reached 0. -/
def topologicalSort (blocks : List FlowBlock) (connections : List Connection) : List String :=
  let gd := kahnBuild blocks connections
  let queue := (gd.2.filter (fun p => p.2 = 0)).map Prod.fst
  kahnLoop gd.1 (blocks.length + 2 * connections.length + 1) gd.2 queue []

/-! ### Mapping resolver (`resolveInputMappings` of flows/index.ts) -/

/-- `resolveInputMappings`: each mapping assigns its target input in
order (a later mapping overwrites an earlier one with the same target).
For `block_output` the target is assigned only when the recorded result
exists and has an `outputs` object; the result's `status` is never
consulted.  The optional id fields fall back to the empty string as in
the source (`|| ''`). -/
def resolveInputMappings (mappings : List InputMapping) (context : ExecutionContext) :
    JsRecord :=
  mappings.foldl
    (fun acc m =>
      match m.source.type with
      | .flow_input =>
          mapSet acc m.targetInput (readField context.inputs (m.source.name.getD ""))
      | .block_output =>
          match mapGet context.blockResults (m.source.blockId.getD "") with
          | some br => match br.outputs with
            | some outs =>
                mapSet acc m.targetInput (readField outs (m.source.outputName.getD ""))
            | none => acc
          | none => acc
      | .constant => mapSet acc m.targetInput m.source.value
      | .expression =>
          mapSet acc m.targetInput
            (match m.source.expression with
             | some s => Js.str s
             | none => Js.undefined))
    []

/-! ### Execution loop (`runFlowExecution` of flows/index.ts) -/

/-- An abstract block dispatcher: what `executeBlock` performs for a
block-definition id, resolved inputs and instance config.  The engine
instantiates it with `executeBlock lookup env · · · isTest`. -/
abbrev Dispatcher := String → JsRecord → Option FlowBlockConfig → BlockOutcome

def continueOnErr (c : Option FlowBlockConfig) : Bool :=
  match c with
  | some cfg => cfg.continueOnError.getD false
  | none => false

structure LoopState where
  error : Option (String × String)
  results : List (String × BlockExecutionResult)
  dispatched : List String
  requests : List UpstreamRequest

/-- The `for (const blockId of executionOrder)` loop: an emitted id with
no matching block instance is skipped; otherwise inputs are resolved, the
block dispatched, the result recorded, and the loop aborts returning the
error message and offending instance id exactly when the result carries
an `error` and the instance's `continueOnError` is not true.
`dispatched` records the instance ids actually dispatched, `requests` the
upstream calls performed. -/
def execLoop (blocks : List FlowBlock) (exec : Dispatcher) :
    List String → ExecutionContext → List String → List UpstreamRequest → LoopState
  | [], ctx, disp, reqs => ⟨none, ctx.blockResults, disp, reqs⟩
  | bid :: rest, ctx, disp, reqs =>
      match blocks.find? (fun b => b.id = bid) with
      | none => execLoop blocks exec rest ctx disp reqs
      | some fb =>
          let ins := resolveInputMappings fb.inputMappings ctx
          let out := exec fb.blockId ins fb.config
          let ctx2 : ExecutionContext :=
            ⟨ctx.flowId, ctx.inputs, ctx.vars, mapSet ctx.blockResults bid out.result⟩
          match out.result.error with
          | some e =>
              if continueOnErr fb.config then
                execLoop blocks exec rest ctx2 (disp ++ [bid]) (reqs ++ out.requests)
              else
                ⟨some (e.message, bid), ctx2.blockResults, disp ++ [bid], reqs ++ out.requests⟩
          | none => execLoop blocks exec rest ctx2 (disp ++ [bid]) (reqs ++ out.requests)

/-- One step of the output projection at the end of `runFlowExecution`:
the key is assigned (possibly with value `undefined`) when the source
block's recorded result exists and has an `outputs` object, and left
entirely absent otherwise. -/
def buildOutputsStep (results : List (String × BlockExecutionResult))
    (acc : JsRecord) (o : FlowOutputDefinition) : JsRecord :=
  match mapGet results o.sourceBlockId with
  | some br => match br.outputs with
    | some outs => mapSet acc o.name (readField outs o.sourceOutput)
    | none => acc
  | none => acc

/-- The output projection loop of `runFlowExecution`. -/
def buildOutputs (decls : List FlowOutputDefinition)
    (results : List (String × BlockExecutionResult)) : JsRecord :=
  decls.foldl (buildOutputsStep results) []

structure RunOutcome where
  outputs : Option JsRecord
  error : Option (String × String)
  results : List (String × BlockExecutionResult)
  dispatched : List String
  requests : List UpstreamRequest

/-- `runFlowExecution` of flows/index.ts: plan, run the loop, and on
normal completion project the declared outputs.  `flowId` of the context
is the loaded document id, irrelevant to the computation. -/
def runFlowExecution (flow : Flow) (inputs : JsRecord) (exec : Dispatcher) : RunOutcome :=
  let order := topologicalSort flow.blocks flow.connections
  let st := execLoop flow.blocks exec order ⟨"", inputs, [], []⟩ [] []
  match st.error with
  | some e => ⟨none, some e, st.results, st.dispatched, st.requests⟩
  | none => ⟨some (buildOutputs flow.outputs st.results), none, st.results,
      st.dispatched, st.requests⟩

/-! ### HTTP surface (`executeFlow` of flows/index.ts, utils/response.ts) -/

/-- The observable part of a `Response` built by utils/response.ts:
status, the `success` flag, serialised `data` (with `undefined`-valued
keys dropped by `JSON.stringify`) and the `error` object. -/
structure EngineResponse where
  status : Nat
  success : Bool
  data : Option JsRecord
  errorCode : Option String
  errorMessage : Option String

/-- `jsonResponse` of utils/response.ts at a record payload. -/
def jsonResponse (data : JsRecord) (status : Nat) : EngineResponse :=
  ⟨status, decide (200 ≤ status ∧ status < 300), some (dropUndefined data), none, none⟩

/-- `errorResponse` of utils/response.ts; when the call site passes no
code the default is the string "ERROR". -/
def errorResponse (message : String) (status : Nat) (code : String) : EngineResponse :=
  ⟨status, false, none, some code, some message⟩

structure ExecuteOutcome where
  response : EngineResponse
  run : Option RunOutcome
  logWritten : Bool

/-- `executeFlow` of flows/index.ts, after the flow lookup (`flowOpt` is
the result of the cache/store lookup filtered by published status) and
the request parsing (`inputs0` is the parsed caller payload).  Required
inputs are validated against the raw payload (first offender wins, with
the default error code), defaults are applied, the flow is executed, a
log write is initiated exactly when `isTest` is false, and the result is
serialised.  `run` is the execution outcome when one happened; its
`requests` are the upstream calls of the invocation. -/
def executeFlow (flowOpt : Option Flow) (inputs0 : JsRecord) (isTest : Bool)
    (lookup : String → Option Block) (env : FetchEnv) : ExecuteOutcome :=
  match flowOpt with
  | none => ⟨errorResponse "Flow not found or not published" 404 "ERROR", none, false⟩
  | some flow =>
      match flow.inputs.find? (fun i => i.required && (readField inputs0 i.name).isUndefined) with
      | some i =>
          ⟨errorResponse ("Missing required input: " ++ i.name) 400 "ERROR", none, false⟩
      | none =>
          let inputs := flow.inputs.foldl
            (fun acc i =>
              if (readField acc i.name).isUndefined && !i.defaultValue.isUndefined then
                mapSet acc i.name i.defaultValue
              else acc)
            inputs0
          let result := runFlowExecution flow inputs
            (fun d ins cfg => executeBlock lookup env d ins cfg isTest)
          match result.error with
          | some e =>
              ⟨errorResponse e.1 500 "EXECUTION_ERROR", some result, !isTest⟩
          | none =>
              ⟨jsonResponse (result.outputs.getD []) 200, some result, !isTest⟩

/-! ### Concrete fixtures used by the counterexamples and witnesses -/

def exBlockA : FlowBlock := ⟨"A", "dA", [], none⟩

def exBlockB : FlowBlock := ⟨"B", "dB", [], none⟩

/-- Two blocks forming the cycle A → B → A, as in spec scenario 4. -/
def exCycFlow : Flow :=
  ⟨"cyc", 1, [exBlockA, exBlockB], [⟨"c1", "A", "B"⟩, ⟨"c2", "B", "A"⟩], [], [], ⟨none⟩⟩

/-- A flow with one required input `msg` and no blocks, as in spec
scenario 2. -/
def exEchoFlow : Flow := ⟨"echo", 1, [], [], [⟨"msg", true, Js.undefined⟩], [], ⟨none⟩⟩

def exDefA : Block := ⟨.api_call, ⟨none, "/a", "GET"⟩, [], [⟨"email", "$.email"⟩]⟩

def exDefB : Block := ⟨.api_call, ⟨none, "/b", "GET"⟩, [], [⟨"ok", "$.ok"⟩]⟩

def exLookup : String → Option Block :=
  fun s => if s = "dA" then some exDefA else if s = "dB" then some exDefB else none

/-- An environment where `/a` answers 500 (with a JSON body) and
everything else answers 200. -/
def exEnvA500 : FetchEnv :=
  fun r =>
    if r.url = "/a" then .ok ⟨500, .obj [("email", .str "u@x")], []⟩
    else .ok ⟨200, .obj [("ok", .bool true)], []⟩

/-- A → B with A failing upstream (500) and no `continueOnError`. -/
def exChainFlow : Flow :=
  ⟨"f2", 1, [exBlockA, exBlockB], [⟨"c1", "A", "B"⟩], [], [⟨"sent", "B", "ok"⟩], ⟨none⟩⟩

/-- A context holding a recorded FAILURE result that still carries an
`outputs` object (exactly what a non-2xx upstream response produces). -/
def exFailedCtx : ExecutionContext :=
  ⟨"", [], [], [("A", ⟨.failure, some [("email", .str "u@x")], none, none⟩)]⟩

def exBlockOutputMapping : InputMapping :=
  ⟨"to", ⟨.block_output, none, some "A", some "email", Js.undefined, none⟩⟩

/-- The upstream body of spec scenario 6. -/
def exItemsBody : Js :=
  .obj [("items", .arr [.obj [("name", .str "first")], .obj [("name", .str "second")]])]

/-- A flow whose only connection comes from an id that is not a block. -/
def exGhostFlow : Flow :=
  ⟨"g", 1, [exBlockB], [⟨"c1", "ghost", "B"⟩], [], [⟨"out", "B", "ok"⟩], ⟨none⟩⟩

/-- A flow-level config timeout that the dispatcher never consults. -/
def exFlowTimeoutFlow : Flow :=
  ⟨"t", 1, [exBlockA], [], [], [], ⟨some 5000⟩⟩

/-- An environment that always fails at the transport level. -/
def exEnvDown : FetchEnv := fun _ => .error "connection refused"

/-- A dispatcher that always succeeds with empty outputs. -/
def exExecOK : Dispatcher := fun _ _ _ => ⟨⟨.success, some [], none, none⟩, []⟩

/-- A dispatcher that always fails with an `error`-carrying result. -/
def exExecErr : Dispatcher := fun _ _ _ => ⟨⟨.failure, none, none, some ⟨"boom", none⟩⟩, []⟩

/-- A dispatcher that always succeeds with output `x = "v"`. -/
def exExecV : Dispatcher := fun _ _ _ => ⟨⟨.success, some [("x", .str "v")], none, none⟩, []⟩

/-- One block `A` with a flow output `y` drawn from its output `x`. -/
def exProjFlow : Flow := ⟨"p", 1, [exBlockA], [], [], [⟨"y", "A", "x"⟩], ⟨none⟩⟩

/-! ## Lemmas: association-list toolkit -/

theorem mapGet_mapSet {β : Type} (m : List (String × β)) (k : String) (v : β) (x : String) :
    mapGet (mapSet m k v) x = if x = k then some v else mapGet m x := by
  induction m with
  | nil =>
      by_cases h : x = k
      · subst h; simp [mapSet, mapGet]
      · simp [mapSet, mapGet, h, Ne.symm h]
  | cons p rest ih =>
      obtain ⟨k2, v2⟩ := p
      by_cases h2 : k2 = k
      · subst h2
        by_cases h : x = k2
        · subst h; simp [mapSet, mapGet]
        · simp [mapSet, mapGet, h, Ne.symm h]
      · by_cases h : x = k2
        · simp [mapSet, mapGet, h2, h]
        · simp [mapSet, mapGet, h2, h, Ne.symm h, ih]

theorem mapGetD_mapSet {β : Type} (m : List (String × β)) (k : String) (v : β) (x : String)
    (d : β) : mapGetD (mapSet m k v) x d = if x = k then v else mapGetD m x d := by
  unfold mapGetD
  rw [mapGet_mapSet]
  by_cases h : x = k <;> simp [h]

theorem keys_mapSet {β : Type} (m : List (String × β)) (k : String) (v : β) :
    (mapSet m k v).map Prod.fst =
      if k ∈ m.map Prod.fst then m.map Prod.fst else m.map Prod.fst ++ [k] := by
  induction m with
  | nil => simp [mapSet]
  | cons p rest ih =>
      obtain ⟨k2, v2⟩ := p
      by_cases h2 : k2 = k
      · subst h2; simp [mapSet]
      · have h2s : ¬ k = k2 := fun hh => h2 hh.symm
        simp only [mapSet, if_neg h2, List.map_cons, ih]
        by_cases hk : k ∈ rest.map Prod.fst
        · simp [hk, h2s]
        · simp [hk, h2s]

theorem nodupKeys_mapSet {β : Type} (m : List (String × β)) (k : String) (v : β)
    (h : (m.map Prod.fst).Nodup) : ((mapSet m k v).map Prod.fst).Nodup := by
  rw [keys_mapSet]
  by_cases hk : k ∈ m.map Prod.fst
  · simpa [hk] using h
  · simp only [hk, if_false]
    exact List.Nodup.append h (List.nodup_singleton k) (by simpa using hk)

theorem mapGet_eq_some_of_mem {β : Type} (m : List (String × β))
    (h : (m.map Prod.fst).Nodup) {k : String} {v : β} (hm : (k, v) ∈ m) :
    mapGet m k = some v := by
  induction m with
  | nil => cases hm
  | cons p rest ih =>
      obtain ⟨k2, v2⟩ := p
      simp only [List.map_cons, List.nodup_cons] at h
      rcases List.mem_cons.mp hm with heq | hmem
      · cases heq; simp [mapGet]
      · have hne : k2 ≠ k := by
          intro hk; subst hk
          exact h.1 (List.mem_map.mpr ⟨(k2, v), hmem, rfl⟩)
        simpa [mapGet, hne] using ih h.2 hmem

theorem mapGet_eq_none_iff {β : Type} (m : List (String × β)) (k : String) :
    mapGet m k = none ↔ k ∉ m.map Prod.fst := by
  induction m with
  | nil => simp [mapGet]
  | cons p rest ih =>
      obtain ⟨k2, v2⟩ := p
      by_cases h : k2 = k
      · subst h; simp [mapGet]
      · have hs : ¬ k = k2 := fun hh => h hh.symm
        simp [mapGet, h, hs, ih]

theorem mem_keys_of_mapGet_eq_some {β : Type} {m : List (String × β)} {k : String} {v : β}
    (h : mapGet m k = some v) : (k, v) ∈ m := by
  induction m with
  | nil => simp [mapGet] at h
  | cons p rest ih =>
      obtain ⟨k2, v2⟩ := p
      by_cases h2 : k2 = k
      · subst h2
        have h3 : some v2 = some v := by simpa [mapGet] using h
        have h4 : v2 = v := by injection h3
        subst h4; exact List.mem_cons_self _ _
      · have h3 : mapGet rest k = some v := by simpa [mapGet, h2] using h
        exact List.mem_cons_of_mem _ (ih h3)

/-! ## Lemmas: the Kahn loop never emits protected nodes -/

theorem edgeCountFrom_cons (k : String) (adj : List String)
    (rest : List (String × List String)) (excl : List String) (t : String) :
    edgeCountFrom ((k, adj) :: rest) excl t =
      (if k ∈ excl then 0 else adj.count t) + edgeCountFrom rest excl t := by
  unfold edgeCountFrom
  by_cases h : k ∈ excl
  · simp [h]
  · simp [h]

theorem edgeCountFrom_notkey (g : List (String × List String)) (excl : List String)
    (c : String) (t : String) (hc : c ∉ g.map Prod.fst) :
    edgeCountFrom g (excl ++ [c]) t = edgeCountFrom g excl t := by
  unfold edgeCountFrom
  have hfilter : List.filter (fun p => decide (p.1 ∉ excl ++ [c])) g =
      List.filter (fun p => decide (p.1 ∉ excl)) g := by
    apply List.filter_congr
    intro p hp
    have hne : p.1 ≠ c := fun h => hc (h ▸ List.mem_map.mpr ⟨p, hp, rfl⟩)
    exact decide_eq_decide.mpr (by simp [List.mem_append, hne])
  rw [hfilter]

theorem edgeCountFrom_snoc (g : List (String × List String)) (excl : List String)
    (c : String) (t : String) (hG : (g.map Prod.fst).Nodup) (hc : c ∉ excl) :
    edgeCountFrom g excl t =
      edgeCountFrom g (excl ++ [c]) t + (mapGetD g c []).count t := by
  induction g with
  | nil => simp [edgeCountFrom, mapGetD, mapGet]
  | cons p rest ih =>
      obtain ⟨k, adj⟩ := p
      simp only [List.map_cons, List.nodup_cons] at hG
      rw [edgeCountFrom_cons, edgeCountFrom_cons]
      by_cases hk : k = c
      · subst hk
        have h1 : mapGetD ((k, adj) :: rest) k [] = adj := by simp [mapGetD, mapGet]
        have h2 : edgeCountFrom rest (excl ++ [k]) t = edgeCountFrom rest excl t :=
          edgeCountFrom_notkey rest excl k t hG.1
        have h3 : k ∈ excl ++ [k] := List.mem_append.mpr (Or.inr (List.mem_singleton.mpr rfl))
        rw [h1, h2, if_neg hc, if_pos h3]
        omega
      · have h1 : mapGetD ((k, adj) :: rest) c [] = mapGetD rest c [] := by
          simp [mapGetD, mapGet, hk]
        have h2 : k ∈ excl ++ [c] ↔ k ∈ excl := by simp [List.mem_append, hk]
        rw [h1, ih hG.2]
        by_cases h : k ∈ excl
        · rw [if_pos h, if_pos (h2.mpr h)]; omega
        · rw [if_neg h, if_neg (fun hh => h (h2.mp hh))]; omega

theorem kahnFold_cons (n : String) (adj : List String) (m : List (String × Int))
    (q : List String) :
    kahnFold (n :: adj) (m, q) =
      kahnFold adj (mapSet m n (mapGetD m n 0 - 1),
        if mapGetD m n 0 - 1 = 0 then q ++ [n] else q) := rfl

theorem kahnFold_deg (adj : List String) (m : List (String × Int)) (q : List String)
    (x : String) :
    mapGetD (kahnFold adj (m, q)).1 x 0 = mapGetD m x 0 - adj.count x := by
  induction adj generalizing m q with
  | nil => simp [kahnFold]
  | cons n rest ih =>
      rw [kahnFold_cons, ih, mapGetD_mapSet]
      by_cases h : x = n
      · subst h
        simp only [if_pos rfl, List.count_cons_self]
        push_cast
        omega
      · rw [if_neg h, List.count_cons_of_ne (by simpa using h)]

theorem kahnFold_queue (adj : List String) (m : List (String × Int)) (q : List String) :
    ∃ p, (kahnFold adj (m, q)).2 = q ++ p ∧ p.Nodup ∧
      (∀ x ∈ p, 1 ≤ mapGetD m x 0 ∧ mapGetD (kahnFold adj (m, q)).1 x 0 ≤ 0) ∧
      (∀ x, 1 + (adj.count x : Int) ≤ mapGetD m x 0 → x ∉ p) := by
  induction adj generalizing m q with
  | nil => exact ⟨[], by simp [kahnFold], List.nodup_nil, by simp, by simp⟩
  | cons n rest ih =>
      rw [kahnFold_cons]
      by_cases hnd : mapGetD m n 0 - 1 = 0
      · rw [if_pos hnd]
        obtain ⟨p, hp, hpnd, hpmem, hpprot⟩ := ih (mapSet m n (mapGetD m n 0 - 1)) (q ++ [n])
        have hnp : n ∉ p := by
          intro hn
          have := (hpmem n hn).1
          rw [mapGetD_mapSet, if_pos rfl] at this
          omega
        refine ⟨n :: p, ?_, List.nodup_cons.mpr ⟨hnp, hpnd⟩, ?_, ?_⟩
        · rw [hp, List.append_assoc, List.singleton_append]
        · intro x hx
          rcases List.mem_cons.mp hx with hx | hx
          · subst hx
            constructor
            · omega
            · rw [kahnFold_deg, mapGetD_mapSet, if_pos rfl]
              have : (0 : Int) ≤ rest.count x := Int.ofNat_nonneg _
              omega
          · have h1 := (hpmem x hx).1
            have h2 := (hpmem x hx).2
            rw [mapGetD_mapSet] at h1
            constructor
            · by_cases hxn : x = n
              · rw [if_pos hxn] at h1; omega
              · rwa [if_neg hxn] at h1
            · exact h2
        · intro x hx
          have hxn : x ≠ n := by
            intro h
            subst h
            rw [List.count_cons_self] at hx
            have : (0 : Int) ≤ rest.count x := Int.ofNat_nonneg _
            omega
          have hcount : (n :: rest).count x = rest.count x :=
            List.count_cons_of_ne (by simpa using hxn) rest
          rw [hcount] at hx
          have : x ∉ p := by
            apply hpprot
            rw [mapGetD_mapSet, if_neg hxn]
            exact hx
          simp [List.mem_cons, hxn, this]
      · rw [if_neg hnd]
        obtain ⟨p, hp, hpnd, hpmem, hpprot⟩ := ih (mapSet m n (mapGetD m n 0 - 1)) q
        refine ⟨p, hp, hpnd, ?_, ?_⟩
        · intro x hx
          have h1 := (hpmem x hx).1
          have h2 := (hpmem x hx).2
          rw [mapGetD_mapSet] at h1
          constructor
          · by_cases hxn : x = n
            · rw [if_pos hxn] at h1
              subst hxn
              omega
            · rwa [if_neg hxn] at h1
          · exact h2
        · intro x hx
          apply hpprot
          rw [mapGetD_mapSet]
          by_cases hxn : x = n
          · subst hxn
            rw [if_pos rfl, List.count_cons_self] at *
            omega
          · rw [if_neg hxn]
            have hcount : (n :: rest).count x = rest.count x :=
              List.count_cons_of_ne (by simpa using hxn) rest
            rw [hcount] at hx
            exact hx

theorem kahnLoop_protected (graph : List (String × List String))
    (hG : (graph.map Prod.fst).Nodup) (S : List String) :
    ∀ (fuel : Nat) (inDeg : List (String × Int)) (queue result : List String),
      (queue ++ result).Nodup →
      (∀ x ∈ queue ++ result, mapGetD inDeg x 0 ≤ 0) →
      (∀ t ∈ S, 1 + (edgeCountFrom graph (S ++ result) t : Int) ≤ mapGetD inDeg t 0) →
      ∀ t ∈ S, t ∉ kahnLoop graph fuel inDeg queue result := by
  intro fuel
  induction fuel with
  | zero =>
      intro inDeg queue result hnd hle hprot t ht hmem
      simp only [kahnLoop] at hmem
      have h1 := hle t (List.mem_append.mpr (Or.inr hmem))
      have h2 := hprot t ht
      have h3 : (0 : Int) ≤ edgeCountFrom graph (S ++ result) t := Int.ofNat_nonneg _
      omega
  | succ fuel ih =>
      intro inDeg queue result hnd hle hprot t ht
      cases queue with
      | nil =>
          intro hmem
          simp only [kahnLoop] at hmem
          have h1 := hle t (List.mem_append.mpr (Or.inr hmem))
          have h2 := hprot t ht
          have h3 : (0 : Int) ≤ edgeCountFrom graph (S ++ result) t := Int.ofNat_nonneg _
          omega
      | cons current rest =>
          simp only [kahnLoop]
          simp only [List.cons_append, List.nodup_cons] at hnd
          have hcur_notin : current ∉ rest ++ result := hnd.1
          have hrr : (rest ++ result).Nodup := hnd.2
          have hcur_le : mapGetD inDeg current 0 ≤ 0 :=
            hle current (by simp)
          have hcurS : current ∉ S := by
            intro hcS
            have := hprot current hcS
            have h3 : (0 : Int) ≤ edgeCountFrom graph (S ++ result) current :=
              Int.ofNat_nonneg _
            omega
          obtain ⟨p, hp, hpnd, hpmem, hpprot⟩ :=
            kahnFold_queue (mapGetD graph current []) inDeg rest
          rw [hp]
          have hdeg : ∀ x, mapGetD (kahnFold (mapGetD graph current []) (inDeg, rest)).1 x 0 =
              mapGetD inDeg x 0 - (mapGetD graph current []).count x :=
            fun x => kahnFold_deg _ _ _ x
          have hp_hi : ∀ x ∈ p, 1 ≤ mapGetD inDeg x 0 := fun x hx => (hpmem x hx).1
          have hp_disj : ∀ x, x ∈ current :: (rest ++ result) → x ∉ p := by
            intro x hx hxp
            have h1 := hp_hi x hxp
            have h2 := hle x (by simpa using hx)
            omega
          apply ih (kahnFold (mapGetD graph current []) (inDeg, rest)).1
            (rest ++ p) (result ++ [current])
          · rw [List.nodup_append]
            refine ⟨?_, ?_, ?_⟩
            · rw [List.nodup_append]
              refine ⟨(List.nodup_append.mp hrr).1, hpnd, ?_⟩
              intro x hx
              exact hp_disj x (by simp [hx])
            · rw [List.nodup_append]
              refine ⟨(List.nodup_append.mp hrr).2.1, List.nodup_singleton _, ?_⟩
              intro x hx
              simp only [List.mem_singleton]
              intro hxc
              subst hxc
              exact hcur_notin (List.mem_append.mpr (Or.inr hx))
            · intro x hx
              rcases List.mem_append.mp hx with hx | hx
              · simp only [List.mem_append, List.mem_singleton]
                rintro (hres | hcur)
                · exact (List.nodup_append.mp hrr).2.2 hx hres
                · subst hcur
                  exact hcur_notin (List.mem_append.mpr (Or.inl hx))
              · simp only [List.mem_append, List.mem_singleton]
                rintro (hres | hcur)
                · exact hp_disj x (by simp [hres]) hx
                · subst hcur
                  exact hp_disj x (by simp) hx
          · intro x hx
            rcases List.mem_append.mp hx with hx | hx
            · rcases List.mem_append.mp hx with hx | hx
              · have := hle x (by simp [hx])
                rw [hdeg]
                have h4 : (0 : Int) ≤ (mapGetD graph current []).count x := Int.ofNat_nonneg _
                omega
              · exact (hpmem x hx).2
            · rcases List.mem_append.mp hx with hx | hx
              · have := hle x (by simp [hx])
                rw [hdeg]
                have h4 : (0 : Int) ≤ (mapGetD graph current []).count x := Int.ofNat_nonneg _
                omega
              · have hxc : x = current := List.mem_singleton.mp hx
                rw [hdeg, hxc]
                have h4 : (0 : Int) ≤ (mapGetD graph current []).count current :=
                  Int.ofNat_nonneg _
                omega
          · intro t2 ht2
            have hc_not : current ∉ S ++ result := by
              intro h
              rcases List.mem_append.mp h with h | h
              · exact hcurS h
              · exact hcur_notin (List.mem_append.mpr (Or.inr h))
            have hsnoc := edgeCountFrom_snoc graph (S ++ result) current t2 hG hc_not
            have hassoc : (S ++ result) ++ [current] = S ++ (result ++ [current]) :=
              List.append_assoc _ _ _
            rw [hassoc] at hsnoc
            have hpr := hprot t2 ht2
            rw [hdeg]
            omega
          · exact ht

/-! ## Lemmas: characterisation of the maps built by `kahnBuild` -/

theorem buildBase_fst (blocks : List FlowBlock)
    (gd : List (String × List String) × List (String × Int)) (x : String) :
    mapGet ((blocks.foldl kahnBuildStepB gd).1) x =
      if x ∈ blocks.map FlowBlock.id then some [] else mapGet gd.1 x := by
  induction blocks generalizing gd with
  | nil => simp
  | cons b bs ih =>
      rw [List.foldl_cons, ih]
      by_cases hbs : x ∈ bs.map FlowBlock.id
      · simp [hbs]
      · simp only [hbs, if_false, kahnBuildStepB, mapGet_mapSet, List.map_cons, List.mem_cons]
        by_cases hb : x = b.id
        · simp [hb]
        · simp [hb, hbs]

theorem buildBase_snd (blocks : List FlowBlock)
    (gd : List (String × List String) × List (String × Int)) (x : String) :
    mapGet ((blocks.foldl kahnBuildStepB gd).2) x =
      if x ∈ blocks.map FlowBlock.id then some 0 else mapGet gd.2 x := by
  induction blocks generalizing gd with
  | nil => simp
  | cons b bs ih =>
      rw [List.foldl_cons, ih]
      by_cases hbs : x ∈ bs.map FlowBlock.id
      · simp [hbs]
      · simp only [hbs, if_false, kahnBuildStepB, mapGet_mapSet, List.map_cons, List.mem_cons]
        by_cases hb : x = b.id
        · simp [hb]
        · simp [hb, hbs]

theorem buildBase_keys (blocks : List FlowBlock)
    (gd : List (String × List String) × List (String × Int))
    (h1 : (gd.1.map Prod.fst).Nodup) (h2 : (gd.2.map Prod.fst).Nodup) :
    (((blocks.foldl kahnBuildStepB gd).1).map Prod.fst).Nodup ∧
    (((blocks.foldl kahnBuildStepB gd).2).map Prod.fst).Nodup := by
  induction blocks generalizing gd with
  | nil => exact ⟨h1, h2⟩
  | cons b bs ih =>
      rw [List.foldl_cons]
      exact ih _ (nodupKeys_mapSet _ _ _ h1) (nodupKeys_mapSet _ _ _ h2)

theorem stepC_fst_get (gd : List (String × List String) × List (String × Int))
    (c : Connection) (x : String) :
    mapGet (kahnBuildStepC gd c).1 x =
      if c.fromBlockId = x then
        (match mapGet gd.1 x with
         | some adj => some (adj ++ [c.toBlockId])
         | none => none)
      else mapGet gd.1 x := by
  by_cases hx : c.fromBlockId = x
  · rw [if_pos hx]
    cases h : mapGet gd.1 x with
    | some adj =>
        have h2 : mapGet gd.1 c.fromBlockId = some adj := hx ▸ h
        show mapGet (kahnBuildStepC gd c).1 x = some (adj ++ [c.toBlockId])
        unfold kahnBuildStepC
        rw [h2]
        show mapGet (mapSet gd.1 c.fromBlockId (adj ++ [c.toBlockId])) x = _
        rw [mapGet_mapSet, if_pos hx.symm]
    | none =>
        have h2 : mapGet gd.1 c.fromBlockId = none := hx ▸ h
        show mapGet (kahnBuildStepC gd c).1 x = none
        unfold kahnBuildStepC
        rw [h2]
        exact h
  · rw [if_neg hx]
    unfold kahnBuildStepC
    cases h : mapGet gd.1 c.fromBlockId with
    | some adj =>
        show mapGet (mapSet gd.1 c.fromBlockId (adj ++ [c.toBlockId])) x = _
        rw [mapGet_mapSet, if_neg (fun hh => hx hh.symm)]
    | none => rfl

theorem buildEdges_fst (conns : List Connection)
    (gd : List (String × List String) × List (String × Int)) (x : String) :
    mapGet ((conns.foldl kahnBuildStepC gd).1) x =
      match mapGet gd.1 x with
      | some adj =>
          some (adj ++
            (conns.filter (fun c => decide (c.fromBlockId = x))).map Connection.toBlockId)
      | none => none := by
  induction conns generalizing gd with
  | nil =>
      cases h : mapGet gd.1 x <;> simp [h]
  | cons c rest ih =>
      rw [List.foldl_cons, ih, stepC_fst_get]
      by_cases hx : c.fromBlockId = x
      · rw [if_pos hx]
        cases h : mapGet gd.1 x with
        | some adj => simp [List.filter_cons, hx, List.append_assoc]
        | none => rfl
      · rw [if_neg hx]
        cases h : mapGet gd.1 x with
        | some adj => simp [List.filter_cons, hx]
        | none => rfl

theorem stepC_snd_getD (gd : List (String × List String) × List (String × Int))
    (c : Connection) (x : String) :
    mapGetD (kahnBuildStepC gd c).2 x 0 =
      mapGetD gd.2 x 0 + (if c.toBlockId = x then 1 else 0) := by
  show mapGetD (mapSet gd.2 c.toBlockId (mapGetD gd.2 c.toBlockId 0 + 1)) x 0 = _
  rw [mapGetD_mapSet]
  by_cases hx : x = c.toBlockId
  · rw [if_pos hx, if_pos hx.symm, hx]
  · rw [if_neg hx, if_neg (fun hh => hx hh.symm)]
    omega

theorem buildEdges_snd (conns : List Connection)
    (gd : List (String × List String) × List (String × Int)) (x : String) :
    mapGetD ((conns.foldl kahnBuildStepC gd).2) x 0 =
      mapGetD gd.2 x 0 + (conns.countP (fun c => decide (c.toBlockId = x)) : Int) := by
  induction conns generalizing gd with
  | nil => simp
  | cons c rest ih =>
      rw [List.foldl_cons, ih, stepC_snd_getD, List.countP_cons]
      by_cases hx : c.toBlockId = x
      · simp only [hx, decide_eq_true_eq, if_pos rfl]
        push_cast
        omega
      · simp only [decide_eq_true_eq, if_neg hx]
        push_cast
        omega

theorem buildEdges_keys (conns : List Connection)
    (gd : List (String × List String) × List (String × Int))
    (h1 : (gd.1.map Prod.fst).Nodup) (h2 : (gd.2.map Prod.fst).Nodup) :
    (((conns.foldl kahnBuildStepC gd).1).map Prod.fst).Nodup ∧
    (((conns.foldl kahnBuildStepC gd).2).map Prod.fst).Nodup := by
  induction conns generalizing gd with
  | nil => exact ⟨h1, h2⟩
  | cons c rest ih =>
      rw [List.foldl_cons]
      apply ih
      · unfold kahnBuildStepC
        cases h : mapGet gd.1 c.fromBlockId with
        | some adj => exact nodupKeys_mapSet _ _ _ h1
        | none => exact h1
      · exact nodupKeys_mapSet _ _ _ h2

theorem kahnBuild_fst_get (blocks : List FlowBlock) (conns : List Connection) (x : String) :
    mapGet (kahnBuild blocks conns).1 x =
      if x ∈ blocks.map FlowBlock.id
      then some ((conns.filter (fun c => decide (c.fromBlockId = x))).map Connection.toBlockId)
      else none := by
  unfold kahnBuild
  rw [buildEdges_fst, buildBase_fst]
  by_cases h : x ∈ blocks.map FlowBlock.id
  · simp [h]
  · simp [h, mapGet]

theorem kahnBuild_snd_getD (blocks : List FlowBlock) (conns : List Connection) (x : String) :
    mapGetD (kahnBuild blocks conns).2 x 0 =
      (conns.countP (fun c => decide (c.toBlockId = x)) : Int) := by
  unfold kahnBuild
  rw [buildEdges_snd]
  have hbase : mapGetD ((blocks.foldl kahnBuildStepB ([], [])).2) x 0 = 0 := by
    unfold mapGetD
    rw [buildBase_snd]
    by_cases h : x ∈ blocks.map FlowBlock.id <;> simp [h, mapGet]
  rw [hbase]
  omega

theorem kahnBuild_keys_nodup (blocks : List FlowBlock) (conns : List Connection) :
    ((kahnBuild blocks conns).1.map Prod.fst).Nodup ∧
    ((kahnBuild blocks conns).2.map Prod.fst).Nodup := by
  unfold kahnBuild
  have hb := buildBase_keys blocks ([], []) (by simp) (by simp)
  exact buildEdges_keys conns _ hb.1 hb.2

/-! ## Lemmas: counting connections by source and target -/

theorem count_map_toBlockId (l : List Connection) (t : String) :
    (l.map Connection.toBlockId).count t = l.countP (fun c => decide (c.toBlockId = t)) := by
  induction l with
  | nil => rfl
  | cons c rest ih =>
      rw [List.map_cons, List.count_cons, List.countP_cons, ih]
      by_cases h : c.toBlockId = t
      · simp [h]
      · simp [h, fun hh : t = c.toBlockId => h hh.symm]

theorem countP_add_disjoint {α : Type} (l : List α) (p q : α → Bool)
    (h : ∀ a ∈ l, ¬(p a = true ∧ q a = true)) :
    l.countP p + l.countP q = l.countP (fun a => p a || q a) := by
  induction l with
  | nil => rfl
  | cons a rest ih =>
      have hrest : ∀ b ∈ rest, ¬(p b = true ∧ q b = true) :=
        fun b hb => h b (List.mem_cons_of_mem _ hb)
      have hhead := h a (List.mem_cons_self _ _)
      rw [List.countP_cons, List.countP_cons, List.countP_cons, ← ih hrest]
      cases hp : p a <;> cases hq : q a <;> simp [hp, hq] at hhead ⊢ <;> omega

theorem sum_countP_from (ks : List String) (hnd : ks.Nodup) (conns : List Connection)
    (t : String) :
    (ks.map (fun k =>
        conns.countP (fun c => decide (c.fromBlockId = k ∧ c.toBlockId = t)))).sum =
      conns.countP (fun c => decide (c.fromBlockId ∈ ks ∧ c.toBlockId = t)) := by
  induction ks with
  | nil => simp
  | cons k rest ih =>
      simp only [List.nodup_cons] at hnd
      rw [List.map_cons, List.sum_cons, ih hnd.2]
      rw [countP_add_disjoint conns _ _ ?disj]
      case disj =>
        intro c hc hcontra
        simp only [decide_eq_true_eq] at hcontra
        exact hnd.1 (hcontra.1.1 ▸ hcontra.2.1)
      apply List.countP_congr
      intro c hc
      simp only [Bool.or_eq_true, decide_eq_true_eq, List.mem_cons]
      constructor
      · rintro (⟨h1, h2⟩ | ⟨h1, h2⟩)
        · exact ⟨Or.inl h1, h2⟩
        · exact ⟨Or.inr h1, h2⟩
      · rintro ⟨h1 | h1, h2⟩
        · exact Or.inl ⟨h1, h2⟩
        · exact Or.inr ⟨h1, h2⟩

theorem countP_succ_le {α : Type} (l : List α) (p q : α → Bool)
    (himp : ∀ a ∈ l, q a = true → p a = true) (e : α) (he : e ∈ l) (hp : p e = true)
    (hq : q e = false) : l.countP q + 1 ≤ l.countP p := by
  induction l with
  | nil => cases he
  | cons a rest ih =>
      have himpr : ∀ b ∈ rest, q b = true → p b = true :=
        fun b hb => himp b (List.mem_cons_of_mem _ hb)
      rw [List.countP_cons, List.countP_cons]
      rcases List.mem_cons.mp he with h | h
      · subst h
        have hmono : rest.countP q ≤ rest.countP p := List.countP_mono_left himpr
        simp only [hp, hq, if_pos, if_neg, Bool.false_eq_true, if_false, if_true]
        omega
      · have hih := ih himpr h
        cases hqa : q a
        · simp only [Bool.false_eq_true, if_false]
          cases hpa : p a <;> simp <;> omega
        · have hpa := himp a (List.mem_cons_self _ _) hqa
          simp only [hpa, hqa, if_true]
          omega

/-- The protected-set theorem for the planner: whenever every member of
`S` is the target of some connection whose source is not a block id or
also lies in `S`, no member of `S` is ever emitted by `topologicalSort`.
This covers both connection sources that do not exist (their edge is
counted into the indegree but never relaxed) and cycles (each member
waits forever on another member). -/
theorem topologicalSort_protected (blocks : List FlowBlock) (conns : List Connection)
    (S : List String)
    (hS : ∀ t ∈ S, ∃ c ∈ conns, c.toBlockId = t ∧
      (c.fromBlockId ∉ blocks.map FlowBlock.id ∨ c.fromBlockId ∈ S)) :
    ∀ t ∈ S, t ∉ topologicalSort blocks conns := by
  intro t ht
  have hK := kahnBuild_keys_nodup blocks conns
  unfold topologicalSort
  apply kahnLoop_protected (kahnBuild blocks conns).1 hK.1 S _ (kahnBuild blocks conns).2 _ []
    ?hnodup ?hle ?hprot t ht
  case hnodup =>
    rw [List.append_nil]
    exact List.Nodup.sublist (List.Sublist.map Prod.fst (List.filter_sublist _)) hK.2
  case hle =>
    intro x hx
    rw [List.append_nil] at hx
    obtain ⟨p, hpmem, hpx⟩ := List.mem_map.mp hx
    obtain ⟨hpin, hppred⟩ := List.mem_filter.mp hpmem
    have hp0 : p.2 = 0 := by simpa using hppred
    have hpp : (p.1, p.2) ∈ (kahnBuild blocks conns).2 := by simpa using hpin
    have hget : mapGet (kahnBuild blocks conns).2 p.1 = some p.2 :=
      mapGet_eq_some_of_mem _ hK.2 hpp
    rw [← hpx]
    unfold mapGetD
    rw [hget, hp0]
    exact le_refl _
  case hprot =>
    intro t2 ht2
    rw [List.append_nil, kahnBuild_snd_getD]
    have hNat : edgeCountFrom (kahnBuild blocks conns).1 S t2 + 1 ≤
        conns.countP (fun c => decide (c.toBlockId = t2)) := by
      have hks_nodup :
          ((((kahnBuild blocks conns).1.filter (fun p => decide (p.1 ∉ S))).map
            Prod.fst)).Nodup :=
        List.Nodup.sublist (List.Sublist.map Prod.fst (List.filter_sublist _)) hK.1
      have hentry : ∀ p ∈ (kahnBuild blocks conns).1.filter (fun p => decide (p.1 ∉ S)),
          p.2.count t2 =
            conns.countP (fun c => decide (c.fromBlockId = p.1 ∧ c.toBlockId = t2)) := by
        intro p hpmem
        obtain ⟨hpin, _⟩ := List.mem_filter.mp hpmem
        have hpp : (p.1, p.2) ∈ (kahnBuild blocks conns).1 := by simpa using hpin
        have hget : mapGet (kahnBuild blocks conns).1 p.1 = some p.2 :=
          mapGet_eq_some_of_mem _ hK.1 hpp
        have hchar := kahnBuild_fst_get blocks conns p.1
        rw [hget] at hchar
        by_cases hid : p.1 ∈ blocks.map FlowBlock.id
        · rw [if_pos hid] at hchar
          have hp2 : p.2 =
              (conns.filter (fun c => decide (c.fromBlockId = p.1))).map
                Connection.toBlockId := by injection hchar
          rw [hp2, count_map_toBlockId, List.countP_filter]
          apply List.countP_congr
          intro c hc
          simp only [Bool.and_eq_true, decide_eq_true_eq]
          constructor
          · rintro ⟨h1, h2⟩; exact ⟨h2, h1⟩
          · rintro ⟨h1, h2⟩; exact ⟨h2, h1⟩
        · rw [if_neg hid] at hchar
          cases hchar
      have hsum : edgeCountFrom (kahnBuild blocks conns).1 S t2 =
          conns.countP (fun c =>
            decide (c.fromBlockId ∈
              (((kahnBuild blocks conns).1.filter (fun p => decide (p.1 ∉ S))).map
                Prod.fst) ∧ c.toBlockId = t2)) := by
        unfold edgeCountFrom
        rw [List.map_congr_left hentry, ← sum_countP_from _ hks_nodup conns t2,
          List.map_map]
        rfl
      obtain ⟨e, he, hto, hdisj⟩ := hS t2 ht2
      rw [hsum]
      apply countP_succ_le conns _ _ ?himp e he ?hp ?hq
      case himp =>
        intro c hc h
        simp only [decide_eq_true_eq] at h ⊢
        exact h.2
      case hp => simpa using hto
      case hq =>
        simp only [decide_eq_false_iff_not]
        rintro ⟨hin, _⟩
        obtain ⟨p, hpmem, hpx⟩ := List.mem_map.mp hin
        obtain ⟨hpin, hppred⟩ := List.mem_filter.mp hpmem
        have hpnotS : p.1 ∉ S := by simpa using hppred
        have hpp : (p.1, p.2) ∈ (kahnBuild blocks conns).1 := by simpa using hpin
        have hget : mapGet (kahnBuild blocks conns).1 p.1 = some p.2 :=
          mapGet_eq_some_of_mem _ hK.1 hpp
        have hchar := kahnBuild_fst_get blocks conns p.1
        rw [hget] at hchar
        by_cases hid : p.1 ∈ blocks.map FlowBlock.id
        · rcases hdisj with hno | hinS
          · exact hno (hpx ▸ hid)
          · exact hpnotS (hpx ▸ hinS)
        · rw [if_neg hid] at hchar
          cases hchar
    omega

/-! ## Lemmas: the execution loop -/

theorem execLoop_spec (blocks : List FlowBlock) (exec : Dispatcher) :
    ∀ (order : List String) (ctx : ExecutionContext) (disp : List String)
      (reqs : List UpstreamRequest),
      ∃ newd, (execLoop blocks exec order ctx disp reqs).dispatched = disp ++ newd ∧
        (∀ x ∈ newd, x ∈ order) ∧
        (∀ x, x ∉ newd → mapGet (execLoop blocks exec order ctx disp reqs).results x =
          mapGet ctx.blockResults x) := by
  intro order
  induction order with
  | nil =>
      intro ctx disp reqs
      exact ⟨[], by simp [execLoop], by simp, by simp [execLoop]⟩
  | cons bid rest ih =>
      intro ctx disp reqs
      cases hfind : blocks.find? (fun b => b.id = bid) with
      | none =>
          obtain ⟨newd, h1, h2, h3⟩ := ih ctx disp reqs
          refine ⟨newd, ?_, ?_, ?_⟩
          · simpa [execLoop, hfind] using h1
          · exact fun x hx => List.mem_cons_of_mem _ (h2 x hx)
          · intro x hx
            simpa [execLoop, hfind] using h3 x hx
      | some fb =>
          cases herr : (exec fb.blockId (resolveInputMappings fb.inputMappings ctx)
              fb.config).result.error with
          | some e =>
              cases hcont : continueOnErr fb.config with
              | true =>
                  obtain ⟨newd, h1, h2, h3⟩ := ih
                    ⟨ctx.flowId, ctx.inputs, ctx.vars, mapSet ctx.blockResults bid
                      (exec fb.blockId (resolveInputMappings fb.inputMappings ctx)
                        fb.config).result⟩
                    (disp ++ [bid]) (reqs ++ (exec fb.blockId
                      (resolveInputMappings fb.inputMappings ctx) fb.config).requests)
                  refine ⟨bid :: newd, ?_, ?_, ?_⟩
                  · simp only [execLoop, hfind, herr, hcont, if_true]
                    rw [h1, List.append_assoc, List.singleton_append]
                  · intro x hx
                    rcases List.mem_cons.mp hx with hx | hx
                    · exact hx ▸ List.mem_cons_self _ _
                    · exact List.mem_cons_of_mem _ (h2 x hx)
                  · intro x hx
                    have hxb : x ≠ bid := fun hh => hx (hh ▸ List.mem_cons_self _ _)
                    have hxn : x ∉ newd := fun hh => hx (List.mem_cons_of_mem _ hh)
                    have := h3 x hxn
                    simp only [execLoop, hfind, herr, hcont, if_true]
                    rw [this]
                    simp only [mapGet_mapSet, if_neg hxb]
              | false =>
                  refine ⟨[bid], ?_, ?_, ?_⟩
                  · simp [execLoop, hfind, herr, hcont]
                  · intro x hx
                    have hxb : x = bid := List.mem_singleton.mp hx
                    subst hxb
                    exact List.mem_cons_self _ _
                  · intro x hx
                    have hxb : x ≠ bid := by simpa using hx
                    simp [execLoop, hfind, herr, hcont, mapGet_mapSet, hxb]
          | none =>
              obtain ⟨newd, h1, h2, h3⟩ := ih
                ⟨ctx.flowId, ctx.inputs, ctx.vars, mapSet ctx.blockResults bid
                  (exec fb.blockId (resolveInputMappings fb.inputMappings ctx)
                    fb.config).result⟩
                (disp ++ [bid]) (reqs ++ (exec fb.blockId
                  (resolveInputMappings fb.inputMappings ctx) fb.config).requests)
              refine ⟨bid :: newd, ?_, ?_, ?_⟩
              · simp only [execLoop, hfind, herr]
                rw [h1, List.append_assoc, List.singleton_append]
              · intro x hx
                rcases List.mem_cons.mp hx with hx | hx
                · exact hx ▸ List.mem_cons_self _ _
                · exact List.mem_cons_of_mem _ (h2 x hx)
              · intro x hx
                have hxb : x ≠ bid := fun hh => hx (hh ▸ List.mem_cons_self _ _)
                have hxn : x ∉ newd := fun hh => hx (List.mem_cons_of_mem _ hh)
                have := h3 x hxn
                simp only [execLoop, hfind, herr]
                rw [this]
                simp only [mapGet_mapSet, if_neg hxb]

theorem execLoop_no_error (blocks : List FlowBlock) (exec : Dispatcher)
    (hexec : ∀ d i cf, (exec d i cf).result.error = none) :
    ∀ (order : List String) (ctx : ExecutionContext) (disp : List String)
      (reqs : List UpstreamRequest),
      (execLoop blocks exec order ctx disp reqs).error = none := by
  intro order
  induction order with
  | nil => intro ctx disp reqs; simp [execLoop]
  | cons bid rest ih =>
      intro ctx disp reqs
      cases hfind : blocks.find? (fun b => b.id = bid) with
      | none => simpa [execLoop, hfind] using ih ctx disp reqs
      | some fb =>
          have herr := hexec fb.blockId (resolveInputMappings fb.inputMappings ctx) fb.config
          simp only [execLoop, hfind, herr]
          exact ih _ _ _

theorem runFlowExecution_fields (flow : Flow) (inputs : JsRecord) (exec : Dispatcher) :
    (runFlowExecution flow inputs exec).results =
      (execLoop flow.blocks exec (topologicalSort flow.blocks flow.connections)
        ⟨"", inputs, [], []⟩ [] []).results ∧
    (runFlowExecution flow inputs exec).dispatched =
      (execLoop flow.blocks exec (topologicalSort flow.blocks flow.connections)
        ⟨"", inputs, [], []⟩ [] []).dispatched ∧
    (runFlowExecution flow inputs exec).requests =
      (execLoop flow.blocks exec (topologicalSort flow.blocks flow.connections)
        ⟨"", inputs, [], []⟩ [] []).requests ∧
    (runFlowExecution flow inputs exec).error =
      (execLoop flow.blocks exec (topologicalSort flow.blocks flow.connections)
        ⟨"", inputs, [], []⟩ [] []).error := by
  simp only [runFlowExecution]
  cases h : (execLoop flow.blocks exec (topologicalSort flow.blocks flow.connections)
      ⟨"", inputs, [], []⟩ [] []).error with
  | some e => simp [h]
  | none => simp [h]

theorem runFlowExecution_outputs_eq (flow : Flow) (inputs : JsRecord) (exec : Dispatcher)
    (h : (runFlowExecution flow inputs exec).error = none) :
    (runFlowExecution flow inputs exec).outputs =
      some (buildOutputs flow.outputs (runFlowExecution flow inputs exec).results) := by
  simp only [runFlowExecution] at h ⊢
  cases hse : (execLoop flow.blocks exec (topologicalSort flow.blocks flow.connections)
      ⟨"", inputs, [], []⟩ [] []).error with
  | some e => simp [hse] at h
  | none => simp [hse]

/-! ## Lemmas: output projection and serialisation -/

theorem buildOutputs_skip (results : List (String × BlockExecutionResult))
    (decls : List FlowOutputDefinition) (acc : JsRecord) (n : String)
    (h : ∀ d ∈ decls, d.name ≠ n) :
    mapGet (decls.foldl (buildOutputsStep results) acc) n = mapGet acc n := by
  induction decls generalizing acc with
  | nil => rfl
  | cons d rest ih =>
      rw [List.foldl_cons, ih _ (fun e he => h e (List.mem_cons_of_mem _ he))]
      cases h2 : mapGet results d.sourceBlockId with
      | some br =>
          cases h3 : br.outputs with
          | some outs =>
              simp only [buildOutputsStep, h2, h3]
              rw [mapGet_mapSet, if_neg (fun hh => h d (List.mem_cons_self _ _) hh.symm)]
          | none => simp only [buildOutputsStep, h2, h3]
      | none => simp only [buildOutputsStep, h2]

theorem buildOutputs_get_gen (results : List (String × BlockExecutionResult))
    (decls : List FlowOutputDefinition) (o : FlowOutputDefinition)
    (hnd : (decls.map FlowOutputDefinition.name).Nodup) (ho : o ∈ decls) :
    ∀ acc, mapGet (decls.foldl (buildOutputsStep results) acc) o.name =
      match mapGet results o.sourceBlockId with
      | some br => match br.outputs with
        | some outs => some (readField outs o.sourceOutput)
        | none => mapGet acc o.name
      | none => mapGet acc o.name := by
  induction decls with
  | nil => cases ho
  | cons d rest ih =>
      intro acc
      simp only [List.map_cons, List.nodup_cons] at hnd
      rcases List.mem_cons.mp ho with hod | hor
      · subst hod
        have hskip : ∀ e ∈ rest, e.name ≠ o.name := by
          intro e he hh
          exact hnd.1 (hh ▸ List.mem_map.mpr ⟨e, he, rfl⟩)
        rw [List.foldl_cons, buildOutputs_skip results rest _ o.name hskip]
        cases h2 : mapGet results o.sourceBlockId with
        | some br =>
            cases h3 : br.outputs with
            | some outs =>
                simp only [buildOutputsStep, h2, h3]
                rw [mapGet_mapSet, if_pos rfl]
            | none => simp only [buildOutputsStep, h2, h3]
        | none => simp only [buildOutputsStep, h2]
      · have hdo : d.name ≠ o.name := by
          intro hh
          exact hnd.1 (hh ▸ List.mem_map.mpr ⟨o, hor, rfl⟩)
        have hstepo : mapGet (buildOutputsStep results acc d) o.name = mapGet acc o.name := by
          cases h2 : mapGet results d.sourceBlockId with
          | some br =>
              cases h3 : br.outputs with
              | some outs =>
                  simp only [buildOutputsStep, h2, h3]
                  rw [mapGet_mapSet, if_neg (fun hh => hdo hh.symm)]
              | none => simp only [buildOutputsStep, h2, h3]
          | none => simp only [buildOutputsStep, h2]
        rw [List.foldl_cons, ih hnd.2 hor (buildOutputsStep results acc d), hstepo]

theorem buildOutputs_get (results : List (String × BlockExecutionResult))
    (decls : List FlowOutputDefinition) (o : FlowOutputDefinition)
    (hnd : (decls.map FlowOutputDefinition.name).Nodup) (ho : o ∈ decls) :
    mapGet (buildOutputs decls results) o.name =
      match mapGet results o.sourceBlockId with
      | some br => match br.outputs with
        | some outs => some (readField outs o.sourceOutput)
        | none => none
      | none => none := by
  have := buildOutputs_get_gen results decls o hnd ho []
  unfold buildOutputs
  rw [this]
  cases h2 : mapGet results o.sourceBlockId with
  | some br => cases h3 : br.outputs <;> rfl
  | none => rfl

theorem buildOutputs_keys_nodup (results : List (String × BlockExecutionResult))
    (decls : List FlowOutputDefinition) :
    ∀ acc : JsRecord, (acc.map Prod.fst).Nodup →
      ((decls.foldl (buildOutputsStep results) acc).map Prod.fst).Nodup := by
  induction decls with
  | nil => exact fun acc h => h
  | cons d rest ih =>
      intro acc hacc
      rw [List.foldl_cons]
      apply ih
      cases h2 : mapGet results d.sourceBlockId with
      | some br =>
          cases h3 : br.outputs with
          | some outs =>
              simp only [buildOutputsStep, h2, h3]
              exact nodupKeys_mapSet _ _ _ hacc
          | none => simpa only [buildOutputsStep, h2, h3] using hacc
      | none => simpa only [buildOutputsStep, h2] using hacc

theorem mapGet_dropUndefined (m : JsRecord) (hnd : (m.map Prod.fst).Nodup) (k : String) :
    mapGet (dropUndefined m) k =
      match mapGet m k with
      | some v => if v.isUndefined then none else some v
      | none => none := by
  induction m with
  | nil => rfl
  | cons p rest ih =>
      obtain ⟨k2, v2⟩ := p
      simp only [List.map_cons, List.nodup_cons] at hnd
      by_cases hk : k2 = k
      · subst hk
        cases hu : v2.isUndefined with
        | true =>
            have hdrop : dropUndefined ((k2, v2) :: rest) = dropUndefined rest := by
              simp [dropUndefined, List.filter_cons, hu]
            rw [hdrop, ih hnd.2]
            have hnone : mapGet rest k2 = none := by
              rw [mapGet_eq_none_iff]
              intro hmem
              exact hnd.1 hmem
            rw [hnone]
            have hhead : mapGet ((k2, v2) :: rest) k2 = some v2 := by simp [mapGet]
            rw [hhead]
            simp [hu]
        | false =>
            have hdrop : dropUndefined ((k2, v2) :: rest) = (k2, v2) :: dropUndefined rest := by
              simp [dropUndefined, List.filter_cons, hu]
            have hhead : mapGet ((k2, v2) :: rest) k2 = some v2 := by simp [mapGet]
            rw [hdrop, hhead]
            simp [mapGet, hu]
      · have htail : mapGet ((k2, v2) :: rest) k = mapGet rest k := by simp [mapGet, hk]
        rw [htail, ← ih hnd.2]
        cases hu : v2.isUndefined with
        | true => simp [dropUndefined, List.filter_cons, hu]
        | false =>
            have hdrop : dropUndefined ((k2, v2) :: rest) = (k2, v2) :: dropUndefined rest := by
              simp [dropUndefined, List.filter_cons, hu]
            rw [hdrop]
            simp [mapGet, hk]

/-! ## The claims -/

/-- C3 counterexample: a recorded result with `status = failure` that
still carries an `outputs` object (as every non-2xx upstream response
does) resolves a `block_output` mapping to the recorded value, not to
`undefined`. -/
theorem c3_failure_output_still_resolves :
    resolveInputMappings [exBlockOutputMapping] exFailedCtx = [("to", Js.str "u@x")] ∧
    readField (resolveInputMappings [exBlockOutputMapping] exFailedCtx) "to" ≠ Js.undefined :=
  ⟨rfl, fun h => Js.noConfusion h⟩

/-- C3 (amended): a `block_output` mapping resolves to `undefined` (the
target key is left absent) exactly when the recorded result is absent or
lacks an `outputs` object; when an `outputs` object is present the mapped
value is returned unchanged, regardless of the result's `status`. -/
theorem c3_amended_status_never_consulted (tgt bid out : String) (ctx : ExecutionContext) :
    (mapGet ctx.blockResults bid = none →
      resolveInputMappings
        [⟨tgt, ⟨.block_output, none, some bid, some out, Js.undefined, none⟩⟩] ctx = []) ∧
    (∀ br, mapGet ctx.blockResults bid = some br →
      (br.outputs = none →
        resolveInputMappings
          [⟨tgt, ⟨.block_output, none, some bid, some out, Js.undefined, none⟩⟩] ctx = []) ∧
      (∀ bo, br.outputs = some bo →
        resolveInputMappings
          [⟨tgt, ⟨.block_output, none, some bid, some out, Js.undefined, none⟩⟩] ctx =
          [(tgt, readField bo out)])) := by
  constructor
  · intro h
    simp [resolveInputMappings, h]
  · intro br hbr
    constructor
    · intro h
      simp [resolveInputMappings, hbr, h]
    · intro bo h
      simp [resolveInputMappings, hbr, h, mapSet]

/-- C3 witness at the concrete failure context. -/
theorem c3_amended_witness :
    mapGet exFailedCtx.blockResults "A" =
      some ⟨.failure, some [("email", Js.str "u@x")], none, none⟩ ∧
    resolveInputMappings [exBlockOutputMapping] exFailedCtx =
      [("to", readField [("email", Js.str "u@x")] "email")] :=
  ⟨rfl,
    ((c3_amended_status_never_consulted "to" "A" "email" exFailedCtx).2
      ⟨.failure, some [("email", Js.str "u@x")], none, none⟩ rfl).2
      [("email", Js.str "u@x")] rfl⟩

/-- C4 counterexample: the missing-required-input response of the execute
path carries the default error code "ERROR", not "INPUT_MISSING" (the
call site of `errorResponse` passes no code).  No execution happens. -/
theorem c4_missing_input_code_is_generic :
    (executeFlow (some exEchoFlow) [] false exLookup exEnvA500).response =
      ⟨400, false, none, some "ERROR", some "Missing required input: msg"⟩ ∧
    (executeFlow (some exEchoFlow) [] false exLookup exEnvA500).run = none ∧
    some "ERROR" ≠ some "INPUT_MISSING" :=
  ⟨rfl, rfl, by decide⟩

/-- C4 (amended): omitting a required flow input yields HTTP 400 with
body code "ERROR" and message naming the first offending input, with no
execution (zero upstream calls) and no log write. -/
theorem c4_amended_missing_input (flow : Flow) (inputs0 : JsRecord) (isTest : Bool)
    (lookup : String → Option Block) (env : FetchEnv) (i : FlowInputDefinition)
    (h : flow.inputs.find?
      (fun i => i.required && (readField inputs0 i.name).isUndefined) = some i) :
    executeFlow (some flow) inputs0 isTest lookup env =
      ⟨⟨400, false, none, some "ERROR", some ("Missing required input: " ++ i.name)⟩,
        none, false⟩ := by
  simp [executeFlow, h, errorResponse]

/-- C4 witness at the concrete flow of spec scenario 2. -/
theorem c4_amended_witness :
    exEchoFlow.inputs.find? (fun i => i.required && (readField [] i.name).isUndefined) =
      some ⟨"msg", true, Js.undefined⟩ ∧
    executeFlow (some exEchoFlow) [] false exLookup exEnvA500 =
      ⟨⟨400, false, none, some "ERROR", some ("Missing required input: " ++ "msg")⟩,
        none, false⟩ :=
  ⟨rfl, c4_amended_missing_input exEchoFlow [] false exLookup exEnvA500
    ⟨"msg", true, Js.undefined⟩ rfl⟩

/-- C5 counterexample: with `retryCount = 3` and a persistent
transport-level failure, the dispatcher performs exactly one upstream
request and returns the failure of that single attempt: there is no
retry. -/
theorem c5_single_attempt_despite_retry_count :
    (executeBlock exLookup exEnvDown "dA" [] (some ⟨none, some 3, none⟩) false).requests.length
      = 1 ∧
    (executeBlock exLookup exEnvDown "dA" [] (some ⟨none, some 3, none⟩) false).result.status
      = ExecStatus.failure ∧
    (executeBlock exLookup exEnvDown "dA" [] (some ⟨none, some 3, none⟩) false).result.error
      = some ⟨"connection refused", none⟩ ∧
    (1 : Nat) ≠ 3 :=
  ⟨rfl, rfl, rfl, by decide⟩

/-- C5 (amended): `retryCount` is ignored entirely — the outcome of
`executeApiCall` does not depend on it — and a block dispatch performs at
most one upstream request (exactly one for an `api_call`, in
`executeApiCall`; zero otherwise). -/
theorem c5_amended_no_retry :
    (∀ (block : Block) (inputs : JsRecord) (t : Option Int) (rc rc2 : Option Int)
        (co : Option Bool) (env : FetchEnv),
      executeApiCall block inputs (some ⟨t, rc, co⟩) env =
        executeApiCall block inputs (some ⟨t, rc2, co⟩) env) ∧
    (∀ (lookup : String → Option Block) (env : FetchEnv) (id : String) (inputs : JsRecord)
        (cfg : Option FlowBlockConfig) (isTest : Bool),
      (executeBlock lookup env id inputs cfg isTest).requests.length ≤ 1) := by
  constructor
  · intro block inputs t rc rc2 co env
    rfl
  · intro lookup env id inputs cfg isTest
    unfold executeBlock
    cases lookup id with
    | none => simp
    | some block =>
        cases isTest with
        | true => simp
        | false =>
            cases htype : block.type <;> simp [htype]

/-- C6 counterexample: with no instance-config timeout and a flow-config
timeout of 5000 ms, the dispatched upstream request carries NO abort
signal at all — neither the flow-config value nor a 30-second default. -/
theorem c6_no_default_timeout :
    ((executeFlow (some exFlowTimeoutFlow) [] false exLookup
        (fun _ => Except.ok ⟨200, Js.obj [], []⟩)).run.map
      (fun r => r.requests.map UpstreamRequest.timeoutMs)) = some [none] ∧
    (none : Option Int) ≠ some 30000 ∧ (none : Option Int) ≠ some 5000 :=
  ⟨rfl, by decide, by decide⟩

/-- C6 (amended): the abort-signal timeout comes from the instance config
alone — a truthy instance `timeout` is used, otherwise no timeout is
applied; the flow config is never consulted by the execution (the run is
invariant under changing it) and there is no 30-second default; an
aborted or failed fetch surfaces as a failure carrying the thrown error's
message. -/
theorem c6_amended_timeout_from_instance_config_only :
    (∀ (block : Block) (inputs : JsRecord) (t : Int) (rc : Option Int) (co : Option Bool),
      t ≠ 0 →
      (buildApiRequest block inputs (some ⟨some t, rc, co⟩)).timeoutMs = some t) ∧
    (∀ (block : Block) (inputs : JsRecord) (rc : Option Int) (co : Option Bool),
      (buildApiRequest block inputs (some ⟨none, rc, co⟩)).timeoutMs = none) ∧
    (∀ (block : Block) (inputs : JsRecord),
      (buildApiRequest block inputs none).timeoutMs = none) ∧
    (∀ (flow : Flow) (cfg1 cfg2 : FlowConfig) (inputs : JsRecord) (exec : Dispatcher),
      runFlowExecution
        ⟨flow.slug, flow.version, flow.blocks, flow.connections, flow.inputs,
          flow.outputs, cfg1⟩ inputs exec =
      runFlowExecution
        ⟨flow.slug, flow.version, flow.blocks, flow.connections, flow.inputs,
          flow.outputs, cfg2⟩ inputs exec) ∧
    (∀ (block : Block) (msg : String),
      apiCallRespond block (Except.error msg) =
        ⟨.failure, none, none, some ⟨msg, none⟩⟩) := by
  refine ⟨?_, ?_, ?_, ?_, ?_⟩
  · intro block inputs t rc co ht
    simp [buildApiRequest, ht]
  · intro block inputs rc co
    simp [buildApiRequest]
  · intro block inputs
    simp [buildApiRequest]
  · intro flow cfg1 cfg2 inputs exec
    rfl
  · intro block msg
    rfl

/-- C6 witness: a truthy instance timeout of 700 ms is used verbatim. -/
theorem c6_amended_witness :
    (700 : Int) ≠ 0 ∧
    (buildApiRequest exDefA [] (some ⟨some 700, none, none⟩)).timeoutMs = some 700 :=
  ⟨by decide,
    c6_amended_timeout_from_instance_config_only.1 exDefA [] 700 none none (by decide)⟩

/-- C7 counterexample: in test mode a block whose definition cannot be
resolved does NOT return the synthetic success — the definition lookup
precedes the test-mode short-circuit and yields a Block-not-found
failure. -/
theorem c7_missing_block_beats_test_mode :
    (executeBlock (fun _ => none) exEnvDown "b1" [] none true).result =
      ⟨.failure, none, none, some ⟨"Block not found: b1", none⟩⟩ ∧
    (executeBlock (fun _ => none) exEnvDown "b1" [] none true).result.status ≠
      ExecStatus.success :=
  ⟨rfl, by decide⟩

/-- C7 (amended): when the block definition resolves, a test-mode
dispatch returns the synthetic success with the `_test` marker and the
definition id, performing zero upstream requests; and a test invocation
of the execute path never initiates an execution-log write. -/
theorem c7_amended_test_short_circuit :
    (∀ (lookup : String → Option Block) (env : FetchEnv) (id : String) (inputs : JsRecord)
        (cfg : Option FlowBlockConfig) (block : Block),
      lookup id = some block →
      executeBlock lookup env id inputs cfg true =
        ⟨⟨.success, some [("_test", Js.bool true), ("blockId", Js.str id)], none, none⟩, []⟩) ∧
    (∀ (flowOpt : Option Flow) (inputs0 : JsRecord) (lookup : String → Option Block)
        (env : FetchEnv),
      (executeFlow flowOpt inputs0 true lookup env).logWritten = false) := by
  constructor
  · intro lookup env id inputs cfg block h
    simp [executeBlock, h]
  · intro flowOpt inputs0 lookup env
    cases flowOpt with
    | none => rfl
    | some flow =>
        simp only [executeFlow]
        cases hv : flow.inputs.find?
            (fun i => i.required && (readField inputs0 i.name).isUndefined) with
        | some i => simp [hv]
        | none =>
            simp only [hv]
            split <;> rfl

/-- C7 witness: the synthetic success at a resolvable definition. -/
theorem c7_amended_witness :
    exLookup "dA" = some exDefA ∧
    executeBlock exLookup exEnvDown "dA" [] none true =
      ⟨⟨.success, some [("_test", Js.bool true), ("blockId", Js.str "dA")], none, none⟩, []⟩ :=
  ⟨rfl, c7_amended_test_short_circuit.1 exLookup exEnvDown "dA" [] none exDefA rfl⟩

/-- C9 counterexample: an indexed segment applied to a NON-array value
yields the selected value itself — the index is ignored — not
`undefined` as the mismatched-type rule claims. -/
theorem c9_index_on_non_array_keeps_value :
    extractJsonPath (Js.obj [("items", Js.obj [("x", Js.num 1)])]) "$.items[0]" =
      Js.obj [("x", Js.num 1)] ∧
    Js.obj [("x", Js.num 1)] ≠ Js.undefined :=
  ⟨rfl, fun h => Js.noConfusion h⟩

/-- C9 (amended): `$` and the empty path return the whole body; the path
is otherwise split on dots after stripping an optional leading dollar;
`null`/`undefined` at a step yield `undefined`; a `key[n]` segment
selects the key and indexes only when the selected value is an array
(out-of-range indexing yields `undefined`); when the selected value is
not an array the segment yields that value unchanged. -/
theorem c9_amended_jsonpath_subset :
    (∀ data : Js, extractJsonPath data "$" = data ∧ extractJsonPath data "" = data) ∧
    extractJsonPath exItemsBody "$.items[0].name" = Js.str "first" ∧
    extractJsonPath (Js.obj [("items", Js.arr [])]) "$.items[0].name" = Js.undefined ∧
    (∀ part : String, stepSeg Js.null part = Js.undefined ∧ stepSeg Js.undefined part = Js.undefined) ∧
    (∀ (cur : Js) (part key : String) (idx : Nat) (xs : List Js),
      cur ≠ Js.null → cur ≠ Js.undefined →
      parseIndexSeg part = some (key, idx) →
      jsGetField cur key = Js.arr xs →
      stepSeg cur part = (xs.get? idx).getD Js.undefined) ∧
    (∀ (cur : Js) (part key : String) (idx : Nat),
      cur ≠ Js.null → cur ≠ Js.undefined →
      parseIndexSeg part = some (key, idx) →
      (∀ xs, jsGetField cur key ≠ Js.arr xs) →
      stepSeg cur part = jsGetField cur key) := by
  refine ⟨?_, rfl, rfl, ?_, ?_, ?_⟩
  · intro data
    constructor <;> simp [extractJsonPath]
  · intro part
    constructor <;> rfl
  · intro cur part key idx xs hnull hu2 hparse harr
    cases cur with
    | null => exact absurd rfl hnull
    | undefined => exact absurd rfl hu2
    | bool b => simp [stepSeg, hparse, harr]
    | num n => simp [stepSeg, hparse, harr]
    | str s => simp [stepSeg, hparse, harr]
    | arr ys => simp [stepSeg, hparse, harr]
    | obj fields => simp [stepSeg, hparse, harr]
  · intro cur part key idx hnull hu2 hparse hnotarr
    cases cur with
    | null => exact absurd rfl hnull
    | undefined => exact absurd rfl hu2
    | bool b =>
        cases hget : jsGetField (Js.bool b) key with
        | arr ys => exact absurd hget (hnotarr ys)
        | _ => simp [stepSeg, hparse, hget]
    | num n =>
        cases hget : jsGetField (Js.num n) key with
        | arr ys => exact absurd hget (hnotarr ys)
        | _ => simp [stepSeg, hparse, hget]
    | str s =>
        cases hget : jsGetField (Js.str s) key with
        | arr ys => exact absurd hget (hnotarr ys)
        | _ => simp [stepSeg, hparse, hget]
    | arr ys =>
        cases hget : jsGetField (Js.arr ys) key with
        | arr zs => exact absurd hget (hnotarr zs)
        | _ => simp [stepSeg, hparse, hget]
    | obj fields =>
        cases hget : jsGetField (Js.obj fields) key with
        | arr ys => exact absurd hget (hnotarr ys)
        | _ => simp [stepSeg, hparse, hget]

/-- C9 witness: array indexing through a concrete segment. -/
theorem c9_amended_witness :
    (Js.obj [("items", Js.arr [Js.num 5])] ≠ Js.null) ∧
    parseIndexSeg "items[0]" = some ("items", 0) ∧
    stepSeg (Js.obj [("items", Js.arr [Js.num 5])]) "items[0]" =
      (([Js.num 5].get? 0).getD Js.undefined) :=
  ⟨fun h => Js.noConfusion h, rfl,
    c9_amended_jsonpath_subset.2.2.2.2.1 (Js.obj [("items", Js.arr [Js.num 5])])
      "items[0]" "items" 0 [Js.num 5] (fun h => Js.noConfusion h)
      (fun h => Js.noConfusion h) rfl rfl⟩

/-- C2 counterexample: block A's upstream answers 500, so its recorded
result has `status = failure` (with no `error` field), `continueOnError`
is not set, and yet the engine does NOT abort: B is dispatched afterwards
and the flow responds 200. -/
theorem c2_http_failure_does_not_abort :
    ((executeFlow (some exChainFlow) [] false exLookup exEnvA500).run.map
      (fun r => mapGet r.results "A")) =
      some (some ⟨.failure, some [("email", Js.str "u@x")],
        some ⟨500, Js.obj [("email", Js.str "u@x")], []⟩, none⟩) ∧
    exBlockA.config = none ∧
    ((executeFlow (some exChainFlow) [] false exLookup exEnvA500).run.map
      RunOutcome.dispatched) = some ["A", "B"] ∧
    ((executeFlow (some exChainFlow) [] false exLookup exEnvA500).run.map
      RunOutcome.error) = some none ∧
    (executeFlow (some exChainFlow) [] false exLookup exEnvA500).response.status = 200 :=
  ⟨rfl, rfl, rfl, rfl, rfl⟩

/-- C2 (amended): a non-2xx upstream response makes the block result a
failure, but that result carries no `error` field; the engine aborts the
plan — returning the message and the offending instance id, with nothing
dispatched afterwards — exactly when a result carries an `error` field
and the instance's `continueOnError` is not true. -/
theorem c2_amended_abort_only_on_error_field :
    (∀ (block : Block) (r : HttpResponse), ¬(200 ≤ r.status ∧ r.status ≤ 299) →
      (apiCallRespond block (Except.ok r)).status = ExecStatus.failure ∧
      (apiCallRespond block (Except.ok r)).error = none) ∧
    (∀ (blocks : List FlowBlock) (exec : Dispatcher) (bid : String) (rest : List String)
        (ctx : ExecutionContext) (disp : List String) (reqs : List UpstreamRequest)
        (fb : FlowBlock) (e : BlockErr),
      blocks.find? (fun b => b.id = bid) = some fb →
      (exec fb.blockId (resolveInputMappings fb.inputMappings ctx) fb.config).result.error =
        some e →
      continueOnErr fb.config = false →
      execLoop blocks exec (bid :: rest) ctx disp reqs =
        ⟨some (e.message, bid),
          mapSet ctx.blockResults bid
            (exec fb.blockId (resolveInputMappings fb.inputMappings ctx) fb.config).result,
          disp ++ [bid],
          reqs ++ (exec fb.blockId (resolveInputMappings fb.inputMappings ctx)
            fb.config).requests⟩) := by
  constructor
  · intro block r hr
    constructor
    · simp [apiCallRespond, hr]
    · rfl
  · intro blocks exec bid rest ctx disp reqs fb e hfind herr hcont
    simp [execLoop, hfind, herr, hcont]

/-- C2 witness: the 500-response failure shape and a concrete immediate
abort on an `error`-carrying result. -/
theorem c2_amended_witness :
    (¬(200 ≤ 500 ∧ 500 ≤ 299) ∧
      (apiCallRespond exDefA (Except.ok ⟨500, Js.obj [], []⟩)).status =
        ExecStatus.failure ∧
      (apiCallRespond exDefA (Except.ok ⟨500, Js.obj [], []⟩)).error = none) ∧
    ([exBlockA].find? (fun b => b.id = "A") = some exBlockA ∧
      continueOnErr exBlockA.config = false ∧
      execLoop [exBlockA] exExecErr ["A"] ⟨"", [], [], []⟩ [] [] =
        ⟨some ("boom", "A"),
          mapSet [] "A" (exExecErr "dA" (resolveInputMappings [] ⟨"", [], [], []⟩)
            none).result, [] ++ ["A"], [] ++ []⟩) :=
  ⟨⟨by decide,
    (c2_amended_abort_only_on_error_field.1 exDefA ⟨500, Js.obj [], []⟩ (by decide)).1,
    (c2_amended_abort_only_on_error_field.1 exDefA ⟨500, Js.obj [], []⟩ (by decide)).2⟩,
    ⟨rfl, rfl,
      c2_amended_abort_only_on_error_field.2 [exBlockA] exExecErr "A" [] ⟨"", [], [], []⟩
        [] [] exBlockA ⟨"boom", none⟩ rfl rfl rfl⟩⟩

/-- C8 (confirmed): for every execution whose projection happens (the run
produced an `outputs` object) and declared output names unique (a flow
data-model invariant), the serialised key under the output's name either
equals the looked-up `results[sourceBlockId].outputs[sourceOutput]` value
or is absent; when the source result or its `outputs` object is missing
the key is absent — never `null`. -/
theorem c8_projection_equals_or_absent (flow : Flow) (inputs : JsRecord) (exec : Dispatcher)
    (hnames : (flow.outputs.map FlowOutputDefinition.name).Nodup)
    (o : FlowOutputDefinition) (ho : o ∈ flow.outputs) (outs : JsRecord)
    (houts : (runFlowExecution flow inputs exec).outputs = some outs) :
    (mapGet (dropUndefined outs) o.name = none ∨
      ∃ br bo, mapGet (runFlowExecution flow inputs exec).results o.sourceBlockId = some br ∧
        br.outputs = some bo ∧ (readField bo o.sourceOutput).isUndefined = false ∧
        mapGet (dropUndefined outs) o.name = some (readField bo o.sourceOutput)) ∧
    ((mapGet (runFlowExecution flow inputs exec).results o.sourceBlockId = none ∨
      (∃ br, mapGet (runFlowExecution flow inputs exec).results o.sourceBlockId = some br ∧
        br.outputs = none)) →
      mapGet (dropUndefined outs) o.name = none) := by
  have houtseq := runFlowExecution_outputs_eq flow inputs exec ?herr
  case herr =>
    simp only [runFlowExecution] at houts ⊢
    cases hse : (execLoop flow.blocks exec (topologicalSort flow.blocks flow.connections)
        ⟨"", inputs, [], []⟩ [] []).error with
    | some e => simp [hse] at houts
    | none => simp [hse]
  have houts2 : outs = buildOutputs flow.outputs (runFlowExecution flow inputs exec).results := by
    rw [houts] at houtseq
    injection houtseq
  have hkeys : (outs.map Prod.fst).Nodup := by
    rw [houts2]
    exact buildOutputs_keys_nodup _ _ [] (by simp)
  have hget := buildOutputs_get (runFlowExecution flow inputs exec).results flow.outputs o
    hnames ho
  rw [← houts2] at hget
  have hdrop := mapGet_dropUndefined outs hkeys o.name
  constructor
  · cases h2 : mapGet (runFlowExecution flow inputs exec).results o.sourceBlockId with
    | none =>
        simp only [h2] at hget
        simp only [hget] at hdrop
        exact Or.inl hdrop
    | some br =>
        cases h3 : br.outputs with
        | none =>
            simp only [h2, h3] at hget
            simp only [hget] at hdrop
            exact Or.inl hdrop
        | some bo =>
            simp only [h2, h3] at hget
            simp only [hget] at hdrop
            cases hu : (readField bo o.sourceOutput).isUndefined with
            | true =>
                simp only [hu, if_true] at hdrop
                exact Or.inl hdrop
            | false =>
                simp only [hu, Bool.false_eq_true, if_false] at hdrop
                exact Or.inr ⟨br, bo, rfl, h3, hu, hdrop⟩
  · intro hmiss
    rcases hmiss with h2 | ⟨br, h2, h3⟩
    · simp only [h2] at hget
      simp only [hget] at hdrop
      exact hdrop
    · simp only [h2, h3] at hget
      simp only [hget] at hdrop
      exact hdrop

/-- C8 witness at a one-block flow whose dispatcher produces `x = "v"`. -/
theorem c8_projection_witness :
    ((exProjFlow.outputs.map FlowOutputDefinition.name).Nodup ∧
      (⟨"y", "A", "x"⟩ : FlowOutputDefinition) ∈ exProjFlow.outputs ∧
      (runFlowExecution exProjFlow [] exExecV).outputs = some [("y", Js.str "v")]) ∧
    ((mapGet (dropUndefined [("y", Js.str "v")]) "y" = none ∨
      ∃ br bo, mapGet (runFlowExecution exProjFlow [] exExecV).results "A" = some br ∧
        br.outputs = some bo ∧ (readField bo "x").isUndefined = false ∧
        mapGet (dropUndefined [("y", Js.str "v")]) "y" = some (readField bo "x")) ∧
    ((mapGet (runFlowExecution exProjFlow [] exExecV).results "A" = none ∨
      (∃ br, mapGet (runFlowExecution exProjFlow [] exExecV).results "A" = some br ∧
        br.outputs = none)) →
      mapGet (dropUndefined [("y", Js.str "v")]) "y" = none)) :=
  ⟨⟨by decide, by decide, rfl⟩,
    c8_projection_equals_or_absent exProjFlow [] exExecV (by decide)
      ⟨"y", "A", "x"⟩ (by decide) [("y", Js.str "v")] rfl⟩

/-- C1 counterexample: the published two-block cycle A → B → A executes
with HTTP 200, `success = true`, no error code, zero dispatches and zero
upstream requests — not 400 FLOW_INVALID. -/
theorem c1_cycle_returns_success :
    (executeFlow (some exCycFlow) [] false exLookup exEnvA500).response.status = 200 ∧
    (executeFlow (some exCycFlow) [] false exLookup exEnvA500).response.success = true ∧
    (executeFlow (some exCycFlow) [] false exLookup exEnvA500).response.errorCode = none ∧
    ((executeFlow (some exCycFlow) [] false exLookup exEnvA500).run.map
      RunOutcome.dispatched) = some [] ∧
    ((executeFlow (some exCycFlow) [] false exLookup exEnvA500).run.map
      RunOutcome.requests) = some [] :=
  ⟨rfl, rfl, rfl, rfl, rfl⟩

/-- C1 (amended): the execute path performs no cycle check.  Every block
belonging to a set in which each member has an incoming connection from
the set (in particular, every block on a cycle) is silently dropped from
the execution order and never dispatched; the endpoint never produces a
FLOW_INVALID error code, and a request that passes input validation is
answered 200 or 500, never 400. -/
theorem c1_amended_no_cycle_detection :
    (∀ (flow : Flow) (inputs : JsRecord) (exec : Dispatcher) (S : List String),
      (∀ t ∈ S, ∃ c ∈ flow.connections, c.toBlockId = t ∧ c.fromBlockId ∈ S) →
      ∀ t ∈ S, t ∉ topologicalSort flow.blocks flow.connections ∧
        t ∉ (runFlowExecution flow inputs exec).dispatched) ∧
    (∀ (flowOpt : Option Flow) (inputs0 : JsRecord) (isTest : Bool)
        (lookup : String → Option Block) (env : FetchEnv),
      (executeFlow flowOpt inputs0 isTest lookup env).response.errorCode ≠
        some "FLOW_INVALID") ∧
    (∀ (flow : Flow) (inputs0 : JsRecord) (isTest : Bool)
        (lookup : String → Option Block) (env : FetchEnv),
      flow.inputs.find?
        (fun i => i.required && (readField inputs0 i.name).isUndefined) = none →
      (executeFlow (some flow) inputs0 isTest lookup env).response.status ≠ 400) := by
  refine ⟨?_, ?_, ?_⟩
  · intro flow inputs exec S hS t ht
    have htopo := topologicalSort_protected flow.blocks flow.connections S ?hS2 t ht
    case hS2 =>
      intro t2 ht2
      obtain ⟨c, hc, h1, h2⟩ := hS t2 ht2
      exact ⟨c, hc, h1, Or.inr h2⟩
    refine ⟨htopo, ?_⟩
    obtain ⟨hres, hdisp, hreq, herr⟩ := runFlowExecution_fields flow inputs exec
    rw [hdisp]
    obtain ⟨newd, h1, h2, h3⟩ := execLoop_spec flow.blocks exec
      (topologicalSort flow.blocks flow.connections) ⟨"", inputs, [], []⟩ [] []
    rw [h1, List.nil_append]
    intro hmem
    exact htopo (h2 t hmem)
  · intro flowOpt inputs0 isTest lookup env
    cases flowOpt with
    | none =>
        show (some "ERROR" : Option String) ≠ some "FLOW_INVALID"
        decide
    | some flow =>
        simp only [executeFlow]
        cases hv : flow.inputs.find?
            (fun i => i.required && (readField inputs0 i.name).isUndefined) with
        | some i =>
            simp only [hv]
            show (some "ERROR" : Option String) ≠ some "FLOW_INVALID"
            decide
        | none =>
            simp only [hv]
            split
            · show (some "EXECUTION_ERROR" : Option String) ≠ some "FLOW_INVALID"
              decide
            · show (none : Option String) ≠ some "FLOW_INVALID"
              decide
  · intro flow inputs0 isTest lookup env hval
    simp only [executeFlow, hval]
    split
    · show (500 : Nat) ≠ 400
      decide
    · show (200 : Nat) ≠ 400
      decide

/-- C1 witness: the concrete cycle A → B → A is never planned nor
dispatched. -/
theorem c1_amended_witness :
    (∀ t ∈ ["A", "B"], ∃ c ∈ exCycFlow.connections,
      c.toBlockId = t ∧ c.fromBlockId ∈ ["A", "B"]) ∧
    ("A" ∉ topologicalSort exCycFlow.blocks exCycFlow.connections ∧
      "A" ∉ (runFlowExecution exCycFlow [] exExecOK).dispatched) :=
  ⟨by decide,
    c1_amended_no_cycle_detection.1 exCycFlow [] exExecOK ["A", "B"] (by decide)
      "A" (by decide)⟩

/-- C10 (confirmed): a connection whose `fromBlockId` matches no block
increments its target's tracked indegree, and no relaxation ever matches
that increment, so the target is never emitted by the planner, never
dispatched, and has no recorded result; when every dispatch is
error-free, the execution completes without error and (with unique
output names) any flow output sourced from the skipped block is absent
from the built outputs. -/
theorem c10_ghost_connection_target_skipped (flow : Flow) (inputs : JsRecord)
    (exec : Dispatcher) (c : Connection) (hc : c ∈ flow.connections)
    (hghost : c.fromBlockId ∉ flow.blocks.map FlowBlock.id) :
    c.toBlockId ∉ topologicalSort flow.blocks flow.connections ∧
    c.toBlockId ∉ (runFlowExecution flow inputs exec).dispatched ∧
    mapGet (runFlowExecution flow inputs exec).results c.toBlockId = none ∧
    ((∀ d i cf, (exec d i cf).result.error = none) →
      (runFlowExecution flow inputs exec).error = none ∧
      ((flow.outputs.map FlowOutputDefinition.name).Nodup →
        ∀ o ∈ flow.outputs, o.sourceBlockId = c.toBlockId →
          ∀ outs, (runFlowExecution flow inputs exec).outputs = some outs →
            mapGet outs o.name = none)) := by
  have htopo := topologicalSort_protected flow.blocks flow.connections [c.toBlockId]
    ?hS c.toBlockId (List.mem_singleton.mpr rfl)
  case hS =>
    intro t2 ht2
    have ht2e : t2 = c.toBlockId := List.mem_singleton.mp ht2
    subst ht2e
    exact ⟨c, hc, rfl, Or.inl hghost⟩
  obtain ⟨hres, hdisp, hreq, herr⟩ := runFlowExecution_fields flow inputs exec
  obtain ⟨newd, h1, h2, h3⟩ := execLoop_spec flow.blocks exec
    (topologicalSort flow.blocks flow.connections) ⟨"", inputs, [], []⟩ [] []
  have hnd : c.toBlockId ∉ newd := fun hmem => htopo (h2 _ hmem)
  have hmiss : mapGet (runFlowExecution flow inputs exec).results c.toBlockId = none := by
    rw [hres, h3 _ hnd]
    rfl
  refine ⟨htopo, ?_, hmiss, ?_⟩
  · rw [hdisp, h1, List.nil_append]
    exact hnd
  · intro hexec
    have herr0 := execLoop_no_error flow.blocks exec hexec
      (topologicalSort flow.blocks flow.connections) ⟨"", inputs, [], []⟩ [] []
    have herr2 : (runFlowExecution flow inputs exec).error = none := by
      rw [herr]
      exact herr0
    refine ⟨herr2, ?_⟩
    intro hnames o ho hsrc outs houts
    have houtseq := runFlowExecution_outputs_eq flow inputs exec herr2
    have houts2 : outs =
        buildOutputs flow.outputs (runFlowExecution flow inputs exec).results := by
      rw [houts] at houtseq
      injection houtseq
    have hget := buildOutputs_get (runFlowExecution flow inputs exec).results
      flow.outputs o hnames ho
    rw [hsrc] at hget
    simp only [hmiss] at hget
    rw [houts2]
    exact hget

/-- C10 witness: the concrete ghost connection skips block B. -/
theorem c10_ghost_witness :
    (⟨"c1", "ghost", "B"⟩ : Connection) ∈ exGhostFlow.connections ∧
    "ghost" ∉ exGhostFlow.blocks.map FlowBlock.id ∧
    "B" ∉ topologicalSort exGhostFlow.blocks exGhostFlow.connections ∧
    (runFlowExecution exGhostFlow [] exExecOK).error = none :=
  ⟨by decide, by decide,
    (c10_ghost_connection_target_skipped exGhostFlow [] exExecOK ⟨"c1", "ghost", "B"⟩
      (by decide) (by decide)).1,
    ((c10_ghost_connection_target_skipped exGhostFlow [] exExecOK ⟨"c1", "ghost", "B"⟩
      (by decide) (by decide)).2.2.2 (fun _ _ _ => rfl)).1⟩

end CB
